import Mathlib

/-!
Shallow embedding of the workflow-orchestration core of the
`pydantic-deepagents` repository (package `pydantic_deep.orchestration`),
together with theorems settling the frozen claims C1..C10 about it.

The embedding translates the Python sources
`models.py`, `state.py`, `executor.py`, `coordinator.py`, `routing.py`,
`cache.py` and `strategy_selector.py` into pure Lean functions:

* Python dicts become ordered association lists (insertion order preserved,
  assignment to an existing key updates in place), matching CPython
  semantics for iteration order;
* `datetime.now()` becomes a logical clock carried in the state: every call
  reads the current tick and advances it, so distinct calls yield distinct,
  increasing timestamps;
* Python floats (retry delays) become rationals; the arithmetic performed
  on them (`min`, `*`) is exact in the source-relevant range;
* the agent substrate (an external collaborator) becomes a parameter
  `outcome : TaskDefinition -> String -> Nat -> Except String String`
  giving the result of the attempt with the given index;
* `hashlib.sha256(...).hexdigest()` is implemented bit-for-bit (FIPS 180-4)
  over UTF-8 bytes, and `json.dumps(obj, sort_keys=True)` is implemented
  with the default separators and `ensure_ascii` escaping;
* the concurrent `asyncio` executors are modelled by their deterministic
  sequential linearization (one in-flight task at a time); the claims
  settled against them only exercise code paths whose behaviour does not
  depend on the interleaving.
-/

namespace PyDeep

/-! ### Ordered association lists (Python `dict` semantics) -/

/-- Lookup in an ordered association list (first binding wins; a Python
dict never holds two bindings of one key, so this is exact). -/
def alGet {α : Type} (m : List (String × α)) (k : String) : Option α :=
  match m with
  | [] => none
  | (k2, v) :: rest => if k2 = k then some v else alGet rest k

/-- Python `k in d`. -/
def alHas {α : Type} (m : List (String × α)) (k : String) : Bool :=
  (alGet m k).isSome

/-- Python `d[k] = v`: update in place if the key exists, else append. -/
def alSet {α : Type} (m : List (String × α)) (k : String) (v : α) :
    List (String × α) :=
  match m with
  | [] => [(k, v)]
  | (k2, v2) :: rest =>
      if k2 = k then (k2, v) :: rest else (k2, v2) :: alSet rest k v

/-- Python `del d[k]` (no-op when absent). -/
def alDel {α : Type} (m : List (String × α)) (k : String) :
    List (String × α) :=
  match m with
  | [] => []
  | (k2, v2) :: rest =>
      if k2 = k then rest else (k2, v2) :: alDel rest k

/-- Keys of an association list, in order. -/
def alKeys {α : Type} (m : List (String × α)) : List String :=
  m.map Prod.fst

/-! ### Python-faithful string containment (`pat in hay`) -/

/-- Sublist-of-consecutive-elements test on char lists. -/
def subChars (pat : List Char) : List Char → Bool
  | [] => pat.isEmpty
  | c :: rest => pat.isPrefixOf (c :: rest) || subChars pat rest

/-- Python `pat in hay` on strings (substring containment). -/
def strContains (hay pat : String) : Bool :=
  subChars pat.data hay.data

/-! ### Stable insertion sort (CPython `list.sort` / `sorted` are stable) -/

/-- Insert before the first element that does not compare `le`-below. -/
def insSorted {α : Type} (le : α → α → Bool) (x : α) : List α → List α
  | [] => [x]
  | y :: ys => if le x y then x :: y :: ys else y :: insSorted le x ys

/-- Stable insertion sort: for `le` a total preorder test, equal-key
elements keep their original relative order, as CPython guarantees. -/
def stableSort {α : Type} (le : α → α → Bool) : List α → List α
  | [] => []
  | x :: xs => insSorted le x (stableSort le xs)

/-! ### UTF-8 encoding (Python `str.encode()`) -/

/-- UTF-8 bytes of one scalar value. -/
def utf8Char (c : Char) : List Nat :=
  let n := c.toNat
  if n < 128 then [n]
  else if n < 2048 then [192 + n / 64, 128 + n % 64]
  else if n < 65536 then
    [224 + n / 4096, 128 + (n / 64) % 64, 128 + n % 64]
  else
    [240 + n / 262144, 128 + (n / 4096) % 64, 128 + (n / 64) % 64,
     128 + n % 64]

/-- UTF-8 bytes of a string. -/
def utf8Bytes (s : String) : List Nat :=
  s.data.foldr (fun c acc => utf8Char c ++ acc) []

/-! ### SHA-256 (FIPS 180-4), on `Nat` with explicit reduction mod 2^32 -/

/-- 2^32. -/
def m32 : Nat := 4294967296

/-- Addition modulo 2^32. -/
def add32 (a b : Nat) : Nat := (a + b) % m32

/-- Right rotation of a 32-bit word. -/
def rotr32 (k n : Nat) : Nat := ((n >>> k) ||| (n <<< (32 - k))) % m32

/-- Bitwise complement of a 32-bit word. -/
def not32 (n : Nat) : Nat := 4294967295 ^^^ n

/-- SHA-256 round constants. -/
def shaK : List Nat :=
  [1116352408, 1899447441, 3049323471, 3921009573,
   961987163, 1508970993, 2453635748, 2870763221,
   3624381080, 310598401, 607225278, 1426881987,
   1925078388, 2162078206, 2614888103, 3248222580,
   3835390401, 4022224774, 264347078, 604807628,
   770255983, 1249150122, 1555081692, 1996064986,
   2554220882, 2821834349, 2952996808, 3210313671,
   3336571891, 3584528711, 113926993, 338241895,
   666307205, 773529912, 1294757372, 1396182291,
   1695183700, 1986661051, 2177026350, 2456956037,
   2730485921, 2820302411, 3259730800, 3345764771,
   3516065817, 3600352804, 4094571909, 275423344,
   430227734, 506948616, 659060556, 883997877,
   958139571, 1322822218, 1537002063, 1747873779,
   1955562222, 2024104815, 2227730452, 2361852424,
   2428436474, 2756734187, 3204031479, 3329325298]

/-- SHA-256 initial hash value. -/
def shaH0 : List Nat :=
  [1779033703, 3144134277, 1013904242, 2773480762,
   1359893119, 2600822924, 528734635, 1541459225]

/-- Big-endian 64-bit length field, as eight bytes. -/
def lenBytes64 (n : Nat) : List Nat :=
  [(n >>> 56) % 256, (n >>> 48) % 256, (n >>> 40) % 256, (n >>> 32) % 256,
   (n >>> 24) % 256, (n >>> 16) % 256, (n >>> 8) % 256, n % 256]

/-- SHA-256 padding: append 0x80, zeros to 56 mod 64, then the bit length. -/
def shaPad (msg : List Nat) : List Nat :=
  let z := (119 - msg.length % 64) % 64
  msg ++ [128] ++ List.replicate z 0 ++ lenBytes64 (msg.length * 8)

/-- Group bytes into big-endian 32-bit words. -/
def bytesToWords : List Nat → List Nat
  | b0 :: b1 :: b2 :: b3 :: rest =>
      (b0 * 16777216 + b1 * 65536 + b2 * 256 + b3) :: bytesToWords rest
  | _ => []

/-- Split a word list into 16-word blocks (fuelled; fuel covers length). -/
def blocks16 : Nat → List Nat → List (List Nat)
  | 0, _ => []
  | _, [] => []
  | fuel + 1, ws => ws.take 16 :: blocks16 fuel (ws.drop 16)

/-- Word `i` of the message schedule under construction. -/
def wAt (w : List Nat) (i : Nat) : Nat := w.getD i 0

/-- Extend a 16-word block to the 64-word message schedule. -/
def shaExtend : Nat → List Nat → List Nat
  | 0, w => w
  | k + 1, w =>
      let i := w.length
      let x15 := wAt w (i - 15)
      let x2 := wAt w (i - 2)
      let s0 := rotr32 7 x15 ^^^ rotr32 18 x15 ^^^ (x15 >>> 3)
      let s1 := rotr32 17 x2 ^^^ rotr32 19 x2 ^^^ (x2 >>> 10)
      shaExtend k (w ++ [(wAt w (i - 16) + s0 + wAt w (i - 7) + s1) % m32])

/-- Working variables of the compression function. -/
structure Sha8 where
  va : Nat
  vb : Nat
  vc : Nat
  vd : Nat
  ve : Nat
  vf : Nat
  vg : Nat
  vh : Nat
deriving Repr, DecidableEq

/-- One compression round. -/
def shaRound (st : Sha8) (kw : Nat × Nat) : Sha8 :=
  let s1 := rotr32 6 st.ve ^^^ rotr32 11 st.ve ^^^ rotr32 25 st.ve
  let ch := (st.ve &&& st.vf) ^^^ (not32 st.ve &&& st.vg)
  let t1 := (st.vh + s1 + ch + kw.1 + kw.2) % m32
  let s0 := rotr32 2 st.va ^^^ rotr32 13 st.va ^^^ rotr32 22 st.va
  let mj := (st.va &&& st.vb) ^^^ (st.va &&& st.vc) ^^^ (st.vb &&& st.vc)
  let t2 := (s0 + mj) % m32
  ⟨(t1 + t2) % m32, st.va, st.vb, st.vc, (st.vd + t1) % m32, st.ve, st.vf,
   st.vg⟩

/-- Compress one block into the running hash (a list of eight words). -/
def shaCompress (h : List Nat) (block : List Nat) : List Nat :=
  let w := shaExtend 48 block
  let init : Sha8 :=
    ⟨wAt h 0, wAt h 1, wAt h 2, wAt h 3, wAt h 4, wAt h 5, wAt h 6, wAt h 7⟩
  let fin := (shaK.zip w).foldl shaRound init
  [add32 (wAt h 0) fin.va, add32 (wAt h 1) fin.vb, add32 (wAt h 2) fin.vc,
   add32 (wAt h 3) fin.vd, add32 (wAt h 4) fin.ve, add32 (wAt h 5) fin.vf,
   add32 (wAt h 6) fin.vg, add32 (wAt h 7) fin.vh]

/-- SHA-256 digest (eight 32-bit words) of a byte list. -/
def sha256Words (msg : List Nat) : List Nat :=
  let ws := bytesToWords (shaPad msg)
  (blocks16 (ws.length + 1) ws).foldl shaCompress shaH0

/-- One lowercase hex digit. -/
def hexDigit (d : Nat) : Char :=
  if d < 10 then Char.ofNat (48 + d) else Char.ofNat (87 + d)

/-- Fixed-width lowercase hex rendering of a value (most significant
nibble first). -/
def hexFixed : Nat → Nat → String
  | 0, _ => ""
  | k + 1, n => hexFixed k (n / 16) ++ String.singleton (hexDigit (n % 16))

/-- `hashlib.sha256(s.encode()).hexdigest()`. -/
def sha256Hex (s : String) : String :=
  (sha256Words (utf8Bytes s)).foldl (fun acc w => acc ++ hexFixed 8 w) ""

/-! ### `json.dumps(..., sort_keys=True)` with default separators

The serializer covers exactly the value shapes `CacheKey.generate` feeds
it: strings, lists of strings, and string-keyed objects. `ensure_ascii`
is on (the CPython default): non-ASCII scalars become `\uXXXX` escapes,
astral ones as surrogate pairs. -/

/-- JSON escape of one character, per CPython `json.dumps` defaults. -/
def jsonEscapeChar (c : Char) : String :=
  let n := c.toNat
  if c = Char.ofNat 34 then "\\\""
  else if c = Char.ofNat 92 then "\\\\"
  else if c = Char.ofNat 10 then "\\n"
  else if c = Char.ofNat 9 then "\\t"
  else if c = Char.ofNat 13 then "\\r"
  else if c = Char.ofNat 8 then "\\b"
  else if c = Char.ofNat 12 then "\\f"
  else if 32 ≤ n ∧ n < 127 then String.singleton c
  else if n < 65536 then "\\u" ++ hexFixed 4 n
  else
    "\\u" ++ hexFixed 4 (55296 + (n - 65536) / 1024) ++
    "\\u" ++ hexFixed 4 (56320 + (n - 65536) % 1024)

/-- A JSON string literal. -/
def jsonStr (s : String) : String :=
  "\"" ++ s.data.foldr (fun c acc => jsonEscapeChar c ++ acc) "" ++ "\""

/-- Comma-joined rendering with the default item separator. -/
def jsonJoin (items : List String) : String :=
  match items with
  | [] => ""
  | x :: rest => rest.foldl (fun acc y => acc ++ ", " ++ y) x

/-- A JSON array of strings. -/
def jsonStrList (l : List String) : String :=
  "[" ++ jsonJoin (l.map jsonStr) ++ "]"

/-- Code-point lexicographic comparison on char lists. -/
def charsLe : List Char → List Char → Bool
  | [], _ => true
  | _ :: _, [] => false
  | a :: as, b :: bs =>
      if a.toNat < b.toNat then true
      else if b.toNat < a.toNat then false
      else charsLe as bs

/-- Python string comparison (`a <= b`): code-point lexicographic. -/
def strLe (a b : String) : Bool := charsLe a.data b.data

/-- A JSON object with `sort_keys=True`; the values are pre-rendered
JSON fragments. -/
def jsonObjSorted (fields : List (String × String)) : String :=
  let sorted := stableSort (fun p q => strLe p.1 q.1) fields
  "\x7b" ++ jsonJoin (sorted.map (fun p => jsonStr p.1 ++ ": " ++ p.2)) ++
  "\x7d"

/-! ### Data model (`models.py`) -/

/-- `TaskStatus` enum. -/
inductive TaskStatus where
  | pending
  | ready
  | running
  | completed
  | failed
  | skipped
  | retrying
deriving Repr, DecidableEq

/-- `ExecutionStrategy` enum. -/
inductive ExecutionStrategy where
  | sequential
  | parallel
  | conditional
  | dag
deriving Repr, DecidableEq

/-- `AgentCapability` enum. -/
inductive AgentCapability where
  | general
  | code_analysis
  | code_generation
  | testing
  | debugging
  | documentation
  | data_processing
  | file_operations
  | api_integration
  | research
deriving Repr, DecidableEq

/-- Python `str(c)` for a `(str, Enum)` member under CPython 3.11:
`"AgentCapability.<NAME>"`. -/
def capStr : AgentCapability → String
  | .general => "AgentCapability.GENERAL"
  | .code_analysis => "AgentCapability.CODE_ANALYSIS"
  | .code_generation => "AgentCapability.CODE_GENERATION"
  | .testing => "AgentCapability.TESTING"
  | .debugging => "AgentCapability.DEBUGGING"
  | .documentation => "AgentCapability.DOCUMENTATION"
  | .data_processing => "AgentCapability.DATA_PROCESSING"
  | .file_operations => "AgentCapability.FILE_OPERATIONS"
  | .api_integration => "AgentCapability.API_INTEGRATION"
  | .research => "AgentCapability.RESEARCH"

/-- `RetryConfig`; the float fields become rationals. -/
structure RetryConfig where
  max_retries : Nat := 3
  backoff_multiplier : ℚ := 2
  initial_delay : ℚ := 1
  max_delay : ℚ := 60
deriving Repr, DecidableEq

/-- `TaskDefinition`. `parameters : dict[str, Any]` is embedded with
string values (the shape the tests and examples use); only its
deterministic JSON form enters any claim. -/
structure TaskDefinition where
  id : String
  description : String
  task_type : Option String := none
  depends_on : List String := []
  required_capabilities : List AgentCapability := [AgentCapability.general]
  required_skills : List String := []
  priority : Nat := 5
  timeout_seconds : Option ℚ := none
  retry_config : RetryConfig := {}
  parameters : List (String × String) := []
  expected_output_type : Option String := none
  agent_type : Option String := none
  condition : Option String := none
deriving Repr, DecidableEq

/-- `TaskResult`. `output : Any` is embedded as an optional string
(`None` or the agent text); timestamps are logical clock ticks. -/
structure TaskResult where
  task_id : String
  status : TaskStatus
  output : Option String := none
  error : Option String := none
  started_at : Option Nat := none
  completed_at : Option Nat := none
  duration_seconds : Option Nat := none
  retry_count : Nat := 0
  agent_used : Option String := none
deriving Repr, DecidableEq

/-- `WorkflowDefinition`. -/
structure WorkflowDefinition where
  id : String
  name : String
  description : String := ""
  tasks : List TaskDefinition
  execution_strategy : ExecutionStrategy := .dag
  default_timeout_seconds : Option ℚ := none
  max_parallel_tasks : Nat := 5
  continue_on_failure : Bool := false
deriving Repr, DecidableEq

/-- The `WorkflowState.status` literal
`"pending" | "running" | "completed" | "failed" | "partial"`. -/
inductive WStatus where
  | pending
  | running
  | completed
  | failed
  | partialDone
deriving Repr, DecidableEq

/-- `WorkflowState`. -/
structure WorkflowState where
  workflow_id : String
  status : WStatus
  task_results : List (String × TaskResult) := []
  current_tasks : List String := []
  pending_tasks : List String := []
  completed_tasks : List String := []
  failed_tasks : List String := []
  started_at : Option Nat := none
  completed_at : Option Nat := none
  error : Option String := none
deriving Repr, DecidableEq

/-- `WorkflowState.get_task_status`. -/
def WorkflowState.get_task_status (st : WorkflowState) (task_id : String) :
    TaskStatus :=
  match alGet st.task_results task_id with
  | some r => r.status
  | none =>
      if task_id ∈ st.current_tasks then .running
      else if task_id ∈ st.pending_tasks then .pending
      else if task_id ∈ st.completed_tasks then .completed
      else if task_id ∈ st.failed_tasks then .failed
      else .pending

/-- `WorkflowState.is_task_ready`. -/
def WorkflowState.is_task_ready (st : WorkflowState) (task : TaskDefinition) :
    Bool :=
  task.depends_on.all fun dep_id =>
    st.get_task_status dep_id = TaskStatus.completed

/-- `AgentRouting`. -/
structure AgentRouting where
  agent_type : String
  capabilities : List AgentCapability
  priority : Nat := 5
  max_concurrent_tasks : Nat := 1
deriving Repr, DecidableEq

/-! ### Result cache (`cache.py`)

The disk tier writes pickle files through the filesystem; it is outside a
pure embedding, so the `disk`/`hybrid` branches that touch files are
modelled as the miss they produce on a fresh directory. Every claim
settled below exercises only the memory tier, which `invalidate_dependents`
is in any case restricted to. -/

/-- `CacheStrategy` enum. -/
inductive CacheStrategy where
  | noCaching
  | memory
  | disk
  | hybrid
deriving Repr, DecidableEq

/-- `CacheConfig` (the `cache_dir` path is part of the unmodelled disk
tier). -/
structure CacheConfig where
  strategy : CacheStrategy := .memory
  ttl_seconds : Option ℚ := none
  max_size : Nat := 1000
  include_dependencies : Bool := true
deriving Repr, DecidableEq

/-- `CacheEntry`. -/
structure CacheEntry where
  key : String
  result : TaskResult
  created_at : Nat
  accessed_at : Nat
  access_count : Nat := 0
  dependency_keys : List String := []
deriving Repr, DecidableEq

/-- Python `str(result.output)` for the embedded `Option String` output. -/
def outputStr : Option String → String
  | none => "None"
  | some s => s

/-- The `key_components` JSON of `CacheKey.generate`, via
`json.dumps(key_components, sort_keys=True)`. -/
def cacheKeyJson (task : TaskDefinition)
    (dependency_results : List (String × TaskResult))
    (include_dependencies : Bool) : String :=
  let base : List (String × String) :=
    [("task_id", jsonStr task.id),
     ("description", jsonStr task.description),
     ("parameters",
       jsonObjSorted (task.parameters.map fun p => (p.1, jsonStr p.2))),
     ("required_capabilities",
       jsonStrList (task.required_capabilities.map capStr)),
     ("required_skills", jsonStrList task.required_skills)]
  let fields :=
    if include_dependencies && !dependency_results.isEmpty then
      let dep_outputs :=
        task.depends_on.foldl
          (fun (acc : List (String × String)) dep_id =>
            match alGet dependency_results dep_id with
            | some r => alSet acc dep_id (jsonStr (outputStr r.output))
            | none => acc)
          []
      base ++ [("dependencies", jsonObjSorted dep_outputs)]
    else base
  jsonObjSorted fields

/-- `CacheKey.generate`: SHA-256 hex digest of the deterministic JSON. -/
def CacheKey.generate (task : TaskDefinition)
    (dependency_results : List (String × TaskResult) := [])
    (include_dependencies : Bool := true) : String :=
  sha256Hex (cacheKeyJson task dependency_results include_dependencies)

/-- `ResultCache` state (memory tier plus statistics). -/
structure ResultCache where
  config : CacheConfig
  memory_cache : List (String × CacheEntry) := []
  hits : Nat := 0
  misses : Nat := 0
  evictions : Nat := 0
  invalidations : Nat := 0
  clock : Nat := 0
deriving Repr, DecidableEq

/-- `ResultCache._is_valid`: TTL check against the entry creation tick. -/
def ResultCache.is_valid (c : ResultCache) (entry : CacheEntry) : Bool :=
  match c.config.ttl_seconds with
  | none => true
  | some ttl => ((c.clock - entry.created_at : ℚ)) < ttl

/-- `ResultCache._evict_lru`: drop the entry with the least `accessed_at`
(first such in iteration order, as CPython `min` returns the first
minimum). -/
def ResultCache.evict_lru (c : ResultCache) : ResultCache :=
  match c.memory_cache with
  | [] => c
  | e0 :: rest =>
      let lru := rest.foldl
        (fun best p => if p.2.accessed_at < best.2.accessed_at then p else best)
        e0
      { c with memory_cache := alDel c.memory_cache lru.1,
               evictions := c.evictions + 1 }

/-- `ResultCache._store_in_memory`. -/
def ResultCache.store_in_memory (c : ResultCache) (key : String)
    (result : TaskResult) (dependency_keys : List String := []) :
    ResultCache :=
  let c :=
    if c.memory_cache.length ≥ c.config.max_size then c.evict_lru else c
  let entry : CacheEntry :=
    { key := key, result := result, created_at := c.clock,
      accessed_at := c.clock, dependency_keys := dependency_keys }
  { c with memory_cache := alSet c.memory_cache key entry,
           clock := c.clock + 1 }

/-- `ResultCache.get` (memory tier; the disk read of `disk`/`hybrid` on a
fresh directory yields `None`, which is what this returns there). -/
def ResultCache.get (c : ResultCache) (task : TaskDefinition)
    (dependency_results : List (String × TaskResult) := []) :
    Option TaskResult × ResultCache :=
  if c.config.strategy = .noCaching then (none, c)
  else
    let key :=
      CacheKey.generate task dependency_results c.config.include_dependencies
    let memHit :=
      if c.config.strategy = .memory ∨ c.config.strategy = .hybrid then
        match alGet c.memory_cache key with
        | some entry => if c.is_valid entry then some entry else none
        | none => none
      else none
    match memHit with
    | some entry =>
        let entry2 :=
          { entry with accessed_at := c.clock,
                       access_count := entry.access_count + 1 }
        (some entry.result,
         { c with memory_cache := alSet c.memory_cache key entry2,
                  hits := c.hits + 1, clock := c.clock + 1 })
    | none => (none, { c with misses := c.misses + 1 })

/-- `ResultCache.put`. -/
def ResultCache.put (c : ResultCache) (task : TaskDefinition)
    (result : TaskResult)
    (dependency_results : List (String × TaskResult) := []) : ResultCache :=
  if c.config.strategy = .noCaching then c
  else
    let key :=
      CacheKey.generate task dependency_results c.config.include_dependencies
    let dep_keys :=
      if c.config.include_dependencies && !dependency_results.isEmpty then
        task.depends_on.foldl
          (fun acc dep_id =>
            if alHas dependency_results dep_id then
              acc ++ [CacheKey.generate
                        { id := dep_id, description := "" } [] false]
            else acc)
          []
      else []
    if c.config.strategy = .memory ∨ c.config.strategy = .hybrid then
      c.store_in_memory key result dep_keys
    else c

/-- `ResultCache.invalidate_dependents`: removes memory entries whose
`dependency_keys` contain `sha256(task_id)[:16]`; returns the count. -/
def ResultCache.invalidate_dependents (c : ResultCache) (task_id : String) :
    Nat × ResultCache :=
  let task_key := (sha256Hex task_id).take 16
  let keys_to_remove :=
    (c.memory_cache.filter fun p => task_key ∈ p.2.dependency_keys).map
      Prod.fst
  let mem := keys_to_remove.foldl (fun m k => alDel m k) c.memory_cache
  (keys_to_remove.length,
   { c with memory_cache := mem,
            invalidations := c.invalidations + keys_to_remove.length })

/-! ### State manager (`state.py`)

`SM` carries the workflow, the mutable `WorkflowState`, and the logical
clock standing in for `datetime.now(timezone.utc)`: each call reads the
current tick and advances it. -/

/-- `StateManager` instance state. -/
structure SM where
  workflow : WorkflowDefinition
  state : WorkflowState
  clock : Nat := 0
deriving Repr, DecidableEq

/-- Read the clock (`datetime.now`) and advance it. -/
def SM.now (sm : SM) : Nat × SM :=
  (sm.clock, { sm with clock := sm.clock + 1 })

/-- `StateManager.__init__`. -/
def SM.init (workflow : WorkflowDefinition) : SM :=
  { workflow := workflow,
    state := { workflow_id := workflow.id, status := .pending,
               pending_tasks := workflow.tasks.map (·.id) } }

/-- `StateManager.start_workflow`. -/
def SM.start_workflow (sm : SM) : SM :=
  let (t, sm) := sm.now
  { sm with state := { sm.state with status := .running,
                                     started_at := some t } }

/-- `StateManager.complete_workflow`. -/
def SM.complete_workflow (sm : SM) : SM :=
  let (t, sm) := sm.now
  { sm with state := { sm.state with status := .completed,
                                     completed_at := some t } }

/-- `StateManager.fail_workflow`. -/
def SM.fail_workflow (sm : SM) (error : String) : SM :=
  let (t, sm) := sm.now
  { sm with state := { sm.state with status := .failed,
                                     error := some error,
                                     completed_at := some t } }

/-- `StateManager.start_task`. -/
def SM.start_task (sm : SM) (task_id : String) : SM :=
  let pending :=
    if task_id ∈ sm.state.pending_tasks then
      sm.state.pending_tasks.erase task_id
    else sm.state.pending_tasks
  let current :=
    if task_id ∈ sm.state.current_tasks then sm.state.current_tasks
    else sm.state.current_tasks ++ [task_id]
  let sm := { sm with state := { sm.state with pending_tasks := pending,
                                               current_tasks := current } }
  match alGet sm.state.task_results task_id with
  | none =>
      let (t, sm) := sm.now
      let results := alSet sm.state.task_results task_id
        { task_id := task_id, status := .running, started_at := some t }
      { sm with state := { sm.state with task_results := results } }
  | some r =>
      let (t, sm) := sm.now
      let results := alSet sm.state.task_results task_id
        { r with status := .running, started_at := some t }
      { sm with state := { sm.state with task_results := results } }

/-- `StateManager.complete_task`. -/
def SM.complete_task (sm : SM) (task_id : String) (output : String)
    (agent_used : Option String) : SM :=
  let current :=
    if task_id ∈ sm.state.current_tasks then
      sm.state.current_tasks.erase task_id
    else sm.state.current_tasks
  let completed :=
    if task_id ∈ sm.state.completed_tasks then sm.state.completed_tasks
    else sm.state.completed_tasks ++ [task_id]
  let sm := { sm with state := { sm.state with current_tasks := current,
                                               completed_tasks := completed } }
  match alGet sm.state.task_results task_id with
  | none => sm
  | some r =>
      let (t, sm) := sm.now
      let dur := match r.started_at with
        | some s => some (t - s)
        | none => r.duration_seconds
      let results := alSet sm.state.task_results task_id
        { r with status := .completed, output := some output,
                 agent_used := agent_used, completed_at := some t,
                 duration_seconds := dur }
      { sm with state := { sm.state with task_results := results } }

/-- `StateManager.fail_task`. -/
def SM.fail_task (sm : SM) (task_id : String) (error : String) : SM :=
  let current :=
    if task_id ∈ sm.state.current_tasks then
      sm.state.current_tasks.erase task_id
    else sm.state.current_tasks
  let failed :=
    if task_id ∈ sm.state.failed_tasks then sm.state.failed_tasks
    else sm.state.failed_tasks ++ [task_id]
  let sm := { sm with state := { sm.state with current_tasks := current,
                                               failed_tasks := failed } }
  match alGet sm.state.task_results task_id with
  | none => sm
  | some r =>
      let (t, sm) := sm.now
      let dur := match r.started_at with
        | some s => some (t - s)
        | none => r.duration_seconds
      let results := alSet sm.state.task_results task_id
        { r with status := .failed, error := some error,
                 completed_at := some t, duration_seconds := dur }
      { sm with state := { sm.state with task_results := results } }

/-- `StateManager.retry_task`. Note: it removes the id from
`failed_tasks` and re-appends it to `pending_tasks`, but does not remove
it from `current_tasks`. -/
def SM.retry_task (sm : SM) (task_id : String) : SM :=
  let failed :=
    if task_id ∈ sm.state.failed_tasks then
      sm.state.failed_tasks.erase task_id
    else sm.state.failed_tasks
  let pending :=
    if task_id ∈ sm.state.pending_tasks then sm.state.pending_tasks
    else sm.state.pending_tasks ++ [task_id]
  let sm := { sm with state := { sm.state with failed_tasks := failed,
                                               pending_tasks := pending } }
  match alGet sm.state.task_results task_id with
  | none => sm
  | some r =>
      let results := alSet sm.state.task_results task_id
        { r with status := .retrying, retry_count := r.retry_count + 1 }
      { sm with state := { sm.state with task_results := results } }

/-- `StateManager.skip_task`. Fresh results get two successive clock
reads as the two timestamps; an existing result only has its status and
error overwritten. -/
def SM.skip_task (sm : SM) (task_id : String) (reason : String) : SM :=
  let pending :=
    if task_id ∈ sm.state.pending_tasks then
      sm.state.pending_tasks.erase task_id
    else sm.state.pending_tasks
  let sm := { sm with state := { sm.state with pending_tasks := pending } }
  match alGet sm.state.task_results task_id with
  | none =>
      let (t1, sm) := sm.now
      let (t2, sm) := sm.now
      let results := alSet sm.state.task_results task_id
        { task_id := task_id, status := .skipped, error := some reason,
          started_at := some t1, completed_at := some t2 }
      { sm with state := { sm.state with task_results := results } }
  | some r =>
      let results := alSet sm.state.task_results task_id
        { r with status := .skipped, error := some reason }
      { sm with state := { sm.state with task_results := results } }

/-- `StateManager.is_workflow_complete`. -/
def SM.is_workflow_complete (sm : SM) : Bool :=
  sm.state.pending_tasks.isEmpty && sm.state.current_tasks.isEmpty

/-- `StateManager.has_failed_tasks`. -/
def SM.has_failed_tasks (sm : SM) : Bool :=
  !sm.state.failed_tasks.isEmpty

/-- `StateManager._evaluate_condition`: true iff some completed task id
occurs as a substring of the condition text. -/
def SM.evaluate_condition (sm : SM) (condition : String) : Bool :=
  sm.state.completed_tasks.any fun task_id => strContains condition task_id

/-- `StateManager.get_ready_tasks`: iterates the declared tasks,
skipping in place any pending ready task whose (truthy) condition fails,
and collecting the rest of the pending ready tasks. -/
def SM.get_ready_tasks (sm : SM) : List TaskDefinition × SM :=
  sm.workflow.tasks.foldl
    (fun (acc : List TaskDefinition × SM) task =>
      let (ready, sm) := acc
      if task.id ∈ sm.state.pending_tasks && sm.state.is_task_ready task then
        match task.condition with
        | some c =>
            if c ≠ "" then
              if sm.evaluate_condition c then (ready ++ [task], sm)
              else (ready, sm.skip_task task.id "Condition not met")
            else (ready ++ [task], sm)
        | none => (ready ++ [task], sm)
      else (ready, sm))
    ([], sm)

/-- `StateManager.build_dependency_graph` (a Python dict build: duplicate
ids collapse onto the first position with the last value). -/
def buildDependencyGraph (w : WorkflowDefinition) :
    List (String × List String) :=
  w.tasks.foldl (fun g task => alSet g task.id task.depends_on) []

/-! ### `StateManager.topological_sort` (Kahn) -/

/-- The two initialization passes over one graph item: ensure every
mentioned dependency has an in-degree slot, then bump the item by its
dependency count. Degrees are integers, as in Python. -/
def kahnInitItem (deg : List (String × Int)) (item : String × List String) :
    List (String × Int) :=
  let deg := item.2.foldl
    (fun d dep => alSet d dep ((alGet d dep).getD 0)) deg
  item.2.foldl
    (fun d _ => alSet d item.1 ((alGet d item.1).getD 0 + 1)) deg

/-- In-degree table: zeros for every task id, then both passes per item. -/
def kahnInitDeg (w : WorkflowDefinition) : List (String × Int) :=
  (buildDependencyGraph w).foldl kahnInitItem
    (w.tasks.foldl (fun d task => alSet d task.id 0) [])

/-- The sweep after popping `t`: for every graph item whose dependency
list contains `t`, decrement its degree and enqueue it when the new
degree is zero. -/
def kahnSweep (t : String) (graph : List (String × List String))
    (deg : List (String × Int)) (queue : List String) :
    List (String × Int) × List String :=
  graph.foldl
    (fun (acc : List (String × Int) × List String) item =>
      let (deg, queue) := acc
      if t ∈ item.2 then
        let v := (alGet deg item.1).getD 0 - 1
        let deg := alSet deg item.1 v
        if v = 0 then (deg, queue ++ [item.1]) else (deg, queue)
      else (deg, queue))
    (deg, queue)

/-- The Kahn work loop (fuelled; each key is enqueued at most once, so
any fuel at least the key count is exact). -/
def kahnLoop (graph : List (String × List String)) :
    Nat → List String → List (String × Int) → List String → List String
  | 0, _, _, result => result
  | _ + 1, [], _, result => result
  | fuel + 1, t :: queue, deg, result =>
      let (deg, queue) := kahnSweep t graph deg queue
      kahnLoop graph fuel queue deg (result ++ [t])

/-- `StateManager.topological_sort`. -/
def SM.topological_sort (sm : SM) : Except String (List String) :=
  let graph := buildDependencyGraph sm.workflow
  let deg := kahnInitDeg sm.workflow
  let queue := (deg.filter fun p => p.2 = 0).map Prod.fst
  let result := kahnLoop graph (deg.length + 1) queue deg []
  if result.length ≠ sm.workflow.tasks.length then
    Except.error "Circular dependency detected in workflow"
  else Except.ok result

/-! ### Router (`routing.py`) -/

/-- Current load of an executor id (`agent_load.get(a, 0)`). -/
def loadOf (load : List (String × Nat)) (agent_type : String) : Nat :=
  (alGet load agent_type).getD 0

/-- `TaskRouter.increment_agent_load`. -/
def incLoad (load : List (String × Nat)) (agent_type : String) :
    List (String × Nat) :=
  alSet load agent_type (loadOf load agent_type + 1)

/-- `TaskRouter.decrement_agent_load`; `max(0, n - 1)` is truncated
subtraction on `Nat`. -/
def decLoad (load : List (String × Nat)) (agent_type : String) :
    List (String × Nat) :=
  alSet load agent_type (loadOf load agent_type - 1)

/-- `TaskRouter._agent_matches_capabilities`: set inclusion of the
required capabilities in the provided ones. -/
def routerMatches (ar : AgentRouting)
    (required : List AgentCapability) : Bool :=
  required.all fun c => c ∈ ar.capabilities

/-- `TaskRouter._find_suitable_agents`. -/
def findSuitableAgents (cfg : List AgentRouting) (task : TaskDefinition) :
    List AgentRouting :=
  cfg.filter fun ar => routerMatches ar task.required_capabilities

/-- The Python sort key `(load, -priority, -len(capabilities))` compared
ascending-lexicographically, as a boolean `≤`. -/
def routeKeyLe (load : List (String × Nat)) (x y : AgentRouting) : Bool :=
  let lx := loadOf load x.agent_type
  let ly := loadOf load y.agent_type
  if lx < ly then true
  else if ly < lx then false
  else if y.priority < x.priority then true
  else if x.priority < y.priority then false
  else if y.capabilities.length < x.capabilities.length then true
  else if x.capabilities.length < y.capabilities.length then false
  else true

/-- `TaskRouter._select_best_agent`: keep the agents under their
concurrency cap (falling back to all suitable ones when none is), stable
sort by the key, take the first. `none` is unreachable for a nonempty
input. -/
def selectBestAgent (load : List (String × Nat))
    (suitable : List AgentRouting) : Option AgentRouting :=
  let available := suitable.filter
    fun a => loadOf load a.agent_type < a.max_concurrent_tasks
  let pool := if available.isEmpty then suitable else available
  (stableSort (routeKeyLe load) pool).head?

/-- `TaskRouter.route_task`. `if task.agent_type:` is Python truthiness:
an explicit type is honoured when it is a non-empty string. -/
def routeTask (cfg : List AgentRouting) (load : List (String × Nat))
    (task : TaskDefinition) : String :=
  let explicit := task.agent_type.getD ""
  if explicit ≠ "" then explicit
  else
    let suitable := findSuitableAgents cfg task
    if suitable.isEmpty then "general-purpose"
    else
      match selectBestAgent load suitable with
      | some best => best.agent_type
      | none => "general-purpose"

/-! ### Strategy selector (`strategy_selector.py`) -/

/-- `analyze_workflow()["has_dependencies"]`. -/
def analyzeHasDependencies (w : WorkflowDefinition) : Bool :=
  w.tasks.any fun t => t.depends_on.length > 0

/-- `analyze_workflow()["has_conditions"]` (`condition is not None`). -/
def analyzeHasConditions (w : WorkflowDefinition) : Bool :=
  w.tasks.any fun t => t.condition.isSome

/-- `recommend_strategy`, with the source control flow kept. -/
def recommendStrategy (w : WorkflowDefinition) : ExecutionStrategy :=
  if w.tasks.isEmpty then .sequential
  else if analyzeHasConditions w then .conditional
  else if !analyzeHasDependencies w then
    (if w.tasks.length > 1 then .parallel else .sequential)
  else if analyzeHasDependencies w then .dag
  else .sequential

/-- `auto_select_strategy`. -/
def autoSelectStrategy (w : WorkflowDefinition) : ExecutionStrategy :=
  if w.execution_strategy ≠ .dag then w.execution_strategy
  else recommendStrategy w

/-! ### Coordinator and per-task driver (`coordinator.py`)

The agent substrate is the external boundary: it is a parameter giving
each attempt of each task a result. The driver records observable
events (agent invocations, `retry_task` calls, backoff sleeps, progress
callback firings) in a trace. -/

/-- Result of the agent substrate for (task, executor id, attempt index). -/
def AgentOutcome : Type :=
  TaskDefinition → String → Nat → Except String String

/-- Observable events of a run. -/
structure Trace where
  invocations : Nat := 0
  retryCalls : Nat := 0
  sleeps : List ℚ := []
  progressFires : Nat := 0
deriving Repr, DecidableEq

/-- Coordinator-level state: workflow state, router load table, trace. -/
structure OrchState where
  sm : SM
  load : List (String × Nat) := []
  trace : Trace := {}
deriving Repr, DecidableEq

/-- One progress-callback firing. -/
def fireProgress (os : OrchState) : OrchState :=
  let tr := { os.trace with progressFires := os.trace.progressFires + 1 }
  { os with trace := tr }

/-- The retry loop of `execute_task` (`while retry_count <= max_retries`),
structurally recursing on the remaining permitted attempts
(`remaining = max_retries + 1 - retry_count`; the `remaining = 0` case is
the unreachable tail after the loop). -/
def driverLoop (outcome : AgentOutcome) (task : TaskDefinition)
    (agent_type : String) :
    Nat → Nat → ℚ → OrchState → OrchState
  | _, 0, _, os =>
      let sm := os.sm.fail_task task.id "Unexpected error in retry logic"
      let os := { os with sm := sm }
      { os with load := decLoad os.load agent_type }
  | attempt, remaining + 1, delay, os =>
      let tr := { os.trace with invocations := os.trace.invocations + 1 }
      let os := { os with trace := tr }
      match outcome task agent_type attempt with
      | .ok out =>
          let sm := os.sm.complete_task task.id out (some agent_type)
          let os := { os with sm := sm }
          let os := { os with load := decLoad os.load agent_type }
          fireProgress os
      | .error e =>
          if remaining > 0 then
            let os := { os with sm := os.sm.retry_task task.id }
            let tr := { os.trace with retryCalls := os.trace.retryCalls + 1 }
            let os := { os with trace := tr }
            let os := fireProgress os
            let tr := { os.trace with sleeps := os.trace.sleeps ++ [delay] }
            let os := { os with trace := tr }
            driverLoop outcome task agent_type (attempt + 1) remaining
              (min (delay * task.retry_config.backoff_multiplier)
                   task.retry_config.max_delay) os
          else
            let os := { os with sm := os.sm.fail_task task.id e }
            let os := { os with load := decLoad os.load agent_type }
            fireProgress os

/-- The per-task driver `execute_task` built by
`_create_task_executor`. -/
def executeTask (cfg : List AgentRouting) (outcome : AgentOutcome)
    (os : OrchState) (task : TaskDefinition) : OrchState :=
  let agent_type := routeTask cfg os.load task
  let os := { os with load := incLoad os.load agent_type }
  let os := { os with sm := os.sm.start_task task.id }
  let os := fireProgress os
  driverLoop outcome task agent_type 0 (task.retry_config.max_retries + 1)
    task.retry_config.initial_delay os

/-- `SequentialExecutor.execute`. -/
def sequentialExecute (cfg : List AgentRouting) (outcome : AgentOutcome)
    (os : OrchState) : OrchState :=
  os.sm.workflow.tasks.foldl
    (fun os task =>
      if !os.sm.workflow.continue_on_failure && os.sm.has_failed_tasks then
        { os with sm := os.sm.skip_task task.id "Previous task failed" }
      else executeTask cfg outcome os task)
    os

/-- `ParallelExecutor.execute`, linearized: the semaphore-gated
`asyncio.gather` runs every task; individual exceptions are already
recorded by the driver. -/
def parallelExecute (cfg : List AgentRouting) (outcome : AgentOutcome)
    (os : OrchState) : OrchState :=
  os.sm.workflow.tasks.foldl (fun os task => executeTask cfg outcome os task)
    os

/-- `ConditionalExecutor.execute`. -/
def conditionalExecute (cfg : List AgentRouting) (outcome : AgentOutcome)
    (os : OrchState) : OrchState :=
  os.sm.workflow.tasks.foldl
    (fun os task =>
      if !os.sm.state.is_task_ready task then
        { os with sm := os.sm.skip_task task.id "Dependencies not satisfied" }
      else
        let condFails := match task.condition with
          | some c => c ≠ "" && !os.sm.evaluate_condition c
          | none => false
        if condFails then
          { os with sm := os.sm.skip_task task.id "Condition not met" }
        else if !os.sm.workflow.continue_on_failure && os.sm.has_failed_tasks
        then
          { os with sm := os.sm.skip_task task.id "Previous task failed" }
        else executeTask cfg outcome os task)
    os

/-- The ready/launch loop of `DAGExecutor.execute`, linearized to one
in-flight task per round (a valid interleaving of the bounded-concurrency
loop; the fuel bounds the rounds and exceeds what any terminating run
uses). -/
def dagLoop (cfg : List AgentRouting) (outcome : AgentOutcome) :
    Nat → OrchState → OrchState
  | 0, os => os
  | fuel + 1, os =>
      if os.sm.is_workflow_complete then os
      else
        let (ready, sm) := os.sm.get_ready_tasks
        let os := { os with sm := sm }
        if !os.sm.workflow.continue_on_failure && os.sm.has_failed_tasks then
          ready.foldl
            (fun os t =>
              { os with sm := os.sm.skip_task t.id "Previous task failed" })
            os
        else
          match ready with
          | [] => os
          | t :: _ => dagLoop cfg outcome fuel (executeTask cfg outcome os t)

/-- `DAGExecutor.execute`: validate acyclicity first; on a cycle, mark
every task failed with the cycle message and return. -/
def dagExecute (cfg : List AgentRouting) (outcome : AgentOutcome)
    (os : OrchState) : OrchState :=
  match os.sm.topological_sort with
  | .error e =>
      let sm := os.sm.workflow.tasks.foldl (fun sm t => sm.fail_task t.id e)
        os.sm
      { os with sm := sm }
  | .ok _ =>
      let fuel :=
        (os.sm.workflow.tasks.length + 1) * (os.sm.workflow.tasks.length + 2)
      dagLoop cfg outcome fuel os

/-- `ExecutorFactory.create_executor` followed by `executor.execute()`. -/
def runExecutor (cfg : List AgentRouting) (outcome : AgentOutcome)
    (strategy : ExecutionStrategy) (os : OrchState) : OrchState :=
  match strategy with
  | .sequential => sequentialExecute cfg outcome os
  | .parallel => parallelExecute cfg outcome os
  | .dag => dagExecute cfg outcome os
  | .conditional => conditionalExecute cfg outcome os

/-- The tail of `execute_workflow` after the executor returns without an
exception: fail or complete the workflow, then fire the final progress
callback. -/
def finishWorkflow (w : WorkflowDefinition) (os : OrchState) : OrchState :=
  let os :=
    if os.sm.has_failed_tasks && !w.continue_on_failure then
      { os with sm := os.sm.fail_workflow "One or more tasks failed" }
    else
      { os with sm := os.sm.complete_workflow }
  fireProgress os

/-- `TaskOrchestrator.execute_workflow`, for runs that finish without a
workflow-level timeout or executor exception (the `asyncio.wait_for`
deadline and the exception handlers are the unmodelled alternatives). -/
def executeWorkflow (cfg : List AgentRouting) (outcome : AgentOutcome)
    (w : WorkflowDefinition) (auto_strategy : Bool := false) : OrchState :=
  let strategy :=
    if auto_strategy then autoSelectStrategy w else w.execution_strategy
  let sm := (SM.init w).start_workflow
  finishWorkflow w (runExecutor cfg outcome strategy { sm := sm })

/-! ### Raw state-store transition sequences (for the invariant claims) -/

/-- One state-store transition primitive. -/
inductive StateOp where
  | start (id : String)
  | complete (id : String) (output : String) (agent : Option String)
  | fail (id : String) (error : String)
  | retry (id : String)
  | skip (id : String) (reason : String)
deriving Repr, DecidableEq

/-- Apply one transition. -/
def applyOp (sm : SM) : StateOp → SM
  | .start id => sm.start_task id
  | .complete id output agent => sm.complete_task id output agent
  | .fail id error => sm.fail_task id error
  | .retry id => sm.retry_task id
  | .skip id reason => sm.skip_task id reason

/-- Apply a sequence of transitions. -/
def applyOps (sm : SM) (ops : List StateOp) : SM :=
  ops.foldl applyOp sm

/-- Pairwise disjointness of the four membership sets of a state. -/
def pairwiseDisjoint (st : WorkflowState) : Prop :=
  (∀ x ∈ st.pending_tasks, x ∉ st.current_tasks) ∧
  (∀ x ∈ st.pending_tasks, x ∉ st.completed_tasks) ∧
  (∀ x ∈ st.pending_tasks, x ∉ st.failed_tasks) ∧
  (∀ x ∈ st.current_tasks, x ∉ st.completed_tasks) ∧
  (∀ x ∈ st.current_tasks, x ∉ st.failed_tasks) ∧
  (∀ x ∈ st.completed_tasks, x ∉ st.failed_tasks)

/-! ### Spec-side formalizations of the claims

The definitions below are written from the wording of the claims, not
from the source; each is compared against the source-derived functions
above in the theorems of the final section. -/

/-- Claim C1, as worded: the terminal status the claim predicts from the
final per-task outcomes and `continue_on_failure`. -/
def claimC1Status (w : WorkflowDefinition) (st : WorkflowState) : WStatus :=
  let status := fun (t : TaskDefinition) => st.get_task_status t.id
  let noFailed := w.tasks.all fun t => status t ≠ .failed
  let allDone := w.tasks.all fun t =>
    status t = .completed ∨ status t = .skipped
  if allDone ∧ noFailed then .completed
  else if w.continue_on_failure ∧
      (w.tasks.any fun t => status t = .completed) ∧
      (w.tasks.any fun t => status t = .failed) then .partialDone
  else .failed

/-- Claim C3, cycle hypothesis: a non-empty set of graph nodes each of
which lists another member of the set among its dependencies (the
standard characterization of a directed cycle in the built graph). -/
def hasCycle (w : WorkflowDefinition) : Prop :=
  ∃ S : List String, S ≠ [] ∧ ∀ s ∈ S,
    ∃ ds, alGet (buildDependencyGraph w) s = some ds ∧ ∃ d ∈ ds, d ∈ S

/-- Every dependency id names a task of the workflow (no phantom graph
nodes). -/
def noPhantomDeps (w : WorkflowDefinition) : Prop :=
  ∀ p ∈ buildDependencyGraph w, ∀ d ∈ p.2,
    d ∈ alKeys (buildDependencyGraph w)

/-- Invariant of the Kahn work loop used for the cycle claims: degree
keys are stable, processed-plus-queued nodes are distinct graph keys
with non-positive recorded degree, and the cycle set is untouched, its
members holding degree `own deps minus processed deps`. -/
def kahnInv (G : List (String × List String)) (S : List String)
    (D : List (String × Int)) (Q R : List String) : Prop :=
  alKeys D = alKeys G ∧
  (R ++ Q).Nodup ∧
  (∀ k ∈ R ++ Q, k ∈ alKeys G) ∧
  (∀ k ∈ R ++ Q, ∃ v, alGet D k = some v ∧ v ≤ 0) ∧
  (∀ s ∈ S, s ∉ R ∧ s ∉ Q) ∧
  (∀ s ∈ S, ∃ ds, alGet G s = some ds ∧
    alGet D s = some ((ds.length : Int) - ((R.filter (· ∈ ds)).length : Int)))

/-- Claim C6 and its amendment: strict lexicographic comparison of
`(load, -priority, -specificity)`, parametrized by the specificity
measure. -/
def claimKeyLt (load : List (String × Nat))
    (specificity : AgentRouting → Nat) (x y : AgentRouting) : Bool :=
  let lx := loadOf load x.agent_type
  let ly := loadOf load y.agent_type
  if lx < ly then true
  else if ly < lx then false
  else if y.priority < x.priority then true
  else if x.priority < y.priority then false
  else decide (specificity y < specificity x)

/-- The first element of the list when ordered by the strict comparison
(ties keep declaration order): the first element that no other element
strictly precedes. -/
def firstMinBy {α : Type} (lt : α → α → Bool) (l : List α) : Option α :=
  l.find? fun x => l.all fun y => !lt y x

/-- Claims C6 / C6-amended, as worded: the routing decision with a
chosen specificity measure. -/
def claimRoute (specificity : AgentRouting → Nat) (cfg : List AgentRouting)
    (load : List (String × Nat)) (task : TaskDefinition) : String :=
  let explicit := task.agent_type.getD ""
  if explicit ≠ "" then explicit
  else
    let suitable := cfg.filter fun ar =>
      task.required_capabilities.all fun c => c ∈ ar.capabilities
    if suitable.isEmpty then "general-purpose"
    else
      let available := suitable.filter
        fun a => loadOf load a.agent_type < a.max_concurrent_tasks
      let pool := if available.isEmpty then suitable else available
      match firstMinBy (claimKeyLt load specificity) pool with
      | some best => best.agent_type
      | none => "general-purpose"

/-- Claim C6 verbatim: specificity is the capability-set size (distinct
capabilities). -/
def claimC6Route (cfg : List AgentRouting) (load : List (String × Nat))
    (task : TaskDefinition) : String :=
  claimRoute (fun a => a.capabilities.dedup.length) cfg load task

/-- Claim C6 amended: specificity is the length of the capability list,
duplicates counted, as the source computes it. -/
def claimC6RouteAmended (cfg : List AgentRouting)
    (load : List (String × Nat)) (task : TaskDefinition) : String :=
  claimRoute (fun a => a.capabilities.length) cfg load task

/-- Claim C7: the backoff sequence `d_0 = initial_delay`,
`d_(k+1) = min(d_k * backoff_multiplier, max_delay)`, truncated to the
given number of sleeps. -/
def backoffDelays : Nat → ℚ → ℚ → ℚ → List ℚ
  | 0, _, _, _ => []
  | k + 1, d, mult, maxDelay =>
      d :: backoffDelays k (min (d * mult) maxDelay) mult maxDelay

/-- Claim C10 verbatim: the decision table, rule 1 reading "non-empty
condition". -/
def claimC10Table (w : WorkflowDefinition) : ExecutionStrategy :=
  if w.tasks.any (fun t => t.condition.getD "" ≠ "") then .conditional
  else if w.tasks.all (fun t => t.depends_on.isEmpty) ∧ w.tasks.length > 1
  then .parallel
  else if w.tasks.any (fun t => !t.depends_on.isEmpty) then .dag
  else .sequential

/-- Claim C10 amended: rule 1 fires for any condition that is set (not
`None`), including the empty string. -/
def claimC10TableAmended (w : WorkflowDefinition) : ExecutionStrategy :=
  if w.tasks.any (fun t => t.condition.isSome) then .conditional
  else if w.tasks.all (fun t => t.depends_on.isEmpty) ∧ w.tasks.length > 1
  then .parallel
  else if w.tasks.any (fun t => !t.depends_on.isEmpty) then .dag
  else .sequential

/-! ### Concrete scenario instances used by counterexamples and witnesses -/

/-- A no-retry configuration. -/
def rcNoRetry : RetryConfig := { max_retries := 0 }

/-- One-task workflow. -/
def wSingle : WorkflowDefinition :=
  { id := "w", name := "w", tasks := [{ id := "a", description := "A" }] }

/-- Sequential two-task workflow with `continue_on_failure = true`. -/
def wC1cx : WorkflowDefinition :=
  { id := "w", name := "w", continue_on_failure := true,
    execution_strategy := .sequential,
    tasks := [{ id := "a", description := "A", retry_config := rcNoRetry },
              { id := "b", description := "B", retry_config := rcNoRetry }] }

/-- Agent stub: task `a` always fails, everything else succeeds. -/
def outcomeAFails : AgentOutcome :=
  fun t _ _ => if t.id = "a" then .error "boom" else .ok "ok"

/-- DAG two-task chain (the rerun scenario of claim C2). -/
def wChain : WorkflowDefinition :=
  { id := "w", name := "w", execution_strategy := .dag,
    tasks := [{ id := "a", description := "A" },
              { id := "b", description := "B", depends_on := ["a"] }] }

/-- Sequential two-task chain for the C2 witness. -/
def wChainSeq : WorkflowDefinition :=
  { wChain with execution_strategy := .sequential }

/-- Agent stub echoing the task id. -/
def outcomeEcho : AgentOutcome := fun t _ _ => .ok ("ok:" ++ t.id)

/-- Agent stub that always fails. -/
def outcomeBoom : AgentOutcome := fun _ _ _ => .error "boom"

/-- DAG workflow whose two tasks depend on each other (a cycle). -/
def wCycle : WorkflowDefinition :=
  { id := "w", name := "w", execution_strategy := .dag,
    tasks := [{ id := "a", description := "A", depends_on := ["b"] },
              { id := "b", description := "B", depends_on := ["a"] }] }

/-- Single-task workflow whose condition is the empty string (set but
empty). -/
def wEmptyCond : WorkflowDefinition :=
  { id := "w", name := "w",
    tasks := [{ id := "a", description := "A", condition := some "" }] }

/-- Router config separating capability-set size from capability-list
length: agent `A` provides two distinct capabilities, agent `B` lists one
capability three times. -/
def cfgDupCaps : List AgentRouting :=
  [{ agent_type := "A", capabilities := [.general, .code_analysis],
     priority := 5, max_concurrent_tasks := 2 },
   { agent_type := "B", capabilities := [.general, .general, .general],
     priority := 5, max_concurrent_tasks := 2 }]

/-- A task with the default capability requirement. -/
def taskPlain : TaskDefinition := { id := "t", description := "t" }

/-- Task with retries for the C7 witness. -/
def taskNoRetry : TaskDefinition :=
  { id := "a", description := "A", retry_config := rcNoRetry }

/-- Cache scenario: dependency task `A` and dependent task `B`. -/
def taskBdep : TaskDefinition :=
  { id := "B", description := "Task B", depends_on := ["A"] }

/-- A completed result for `A`. -/
def resA : TaskResult :=
  { task_id := "A", status := .completed, output := some "outA" }

/-- A completed result for `B`. -/
def resB : TaskResult :=
  { task_id := "B", status := .completed, output := some "outB" }

/-- The memory key `put` stores for `taskBdep` given the result of `A`
(checked below against the reference implementation). -/
def keyBdep : String := CacheKey.generate taskBdep [("A", resA)] true

/-- Parameter list and its reordering for the C8 witness. -/
def paramsAB : List (String × String) := [("a", "1"), ("b", "2")]

/-- Reordered parameters. -/
def paramsBA : List (String × String) := [("b", "2"), ("a", "1")]

/-- Task carrying `paramsAB`. -/
def taskParams : TaskDefinition :=
  { id := "T", description := "desc", parameters := paramsAB }

/-! ## Helper lemmas -/

theorem alGet_alSet_self {α : Type} (m : List (String × α)) (k : String)
    (v : α) : alGet (alSet m k v) k = some v := by
  induction m with
  | nil => simp [alSet, alGet]
  | cons p rest ih =>
      by_cases h : p.1 = k
      · simp [alSet, alGet, h]
      · simp [alSet, alGet, h, ih]

theorem alGet_alSet_ne {α : Type} (m : List (String × α)) {k k' : String}
    (h : k' ≠ k) (v : α) : alGet (alSet m k v) k' = alGet m k' := by
  induction m with
  | nil =>
      simp only [alSet, alGet,
        if_neg (show ¬ k = k' from fun hh => h hh.symm)]
  | cons p rest ih =>
      obtain ⟨pk, pv⟩ := p
      by_cases hp : pk = k
      · have h1 : alSet ((pk, pv) :: rest) k v = (pk, v) :: rest := by
          simp [alSet, hp]
        rw [h1]
        have h2 : ¬ pk = k' := fun hh => h (hh ▸ hp)
        simp [alGet, h2]
      · have h1 : alSet ((pk, pv) :: rest) k v = (pk, pv) :: alSet rest k v :=
          by simp [alSet, hp]
        rw [h1]
        by_cases h2 : pk = k'
        · simp [alGet, h2]
        · simp [alGet, h2, ih]

/-- Sanity check of the SHA-256 embedding against the FIPS 180-4 test
vector. -/
theorem sha256Hex_abc :
    sha256Hex "abc"
      = "ba7816bf8f01cfea414140de5dae2223b00361a396177a9cb410ff61f20015ad" := by
  decide

/-! ## Claim C10 -/

/-- Claim C10 counterexample: on a single task whose condition is the
empty string, the code returns `conditional` (it tests `condition is not
None`) while the decision table of the claim, whose first rule requires a
non-empty condition, yields `sequential`. -/
theorem c10_counterexample :
    recommendStrategy wEmptyCond = .conditional ∧
    claimC10Table wEmptyCond = .sequential ∧
    ExecutionStrategy.conditional ≠ ExecutionStrategy.sequential := by
  decide

/-- Claim C10 (amended): `recommend_strategy` applies the decision table
in order, with rule 1 reading "any task has a condition that is set (not
`None`), even the empty string": conditional, else parallel when no task
has dependencies and there is more than one task, else dag when any task
has dependencies, else sequential. -/
theorem c10_strategy_table (w : WorkflowDefinition) :
    recommendStrategy w = claimC10TableAmended w := by
  unfold recommendStrategy claimC10TableAmended analyzeHasConditions
    analyzeHasDependencies
  rcases h : w.tasks with _ | ⟨t0, ts⟩
  · simp
  · by_cases hc : ((t0 :: ts).any fun t => t.condition.isSome) = true
    · simp [hc]
    · have hbridge : ((t0 :: ts).any fun t => !t.depends_on.isEmpty)
          = ((t0 :: ts).any fun t => decide (t.depends_on.length > 0)) := by
        induction (t0 :: ts) with
        | nil => rfl
        | cons x xs ih =>
            simp only [List.any_cons, ih]
            congr 1
            cases x.depends_on <;> simp
      by_cases hd : ((t0 :: ts).any fun t => decide (t.depends_on.length > 0))
          = true
      · have hall : ((t0 :: ts).all fun t => t.depends_on.isEmpty) = false := by
          rcases List.any_eq_true.mp hd with ⟨x, hx, hlen⟩
          refine List.all_eq_false.mpr ⟨x, hx, ?_⟩
          cases hxe : x.depends_on with
          | nil => simp [hxe] at hlen
          | cons a l => simp [hxe]
        simp [hc, hd, hall, hbridge]
      · have hall : ((t0 :: ts).all fun t => t.depends_on.isEmpty) = true := by
          refine List.all_eq_true.mpr fun x hx => ?_
          have := List.any_eq_false.mp (Bool.not_eq_true _ ▸ hd) x hx
          cases hxe : x.depends_on with
          | nil => simp [hxe]
          | cons a l => simp [hxe] at this
        by_cases hn : (t0 :: ts).length > 1
        · simp [hc, hd, hall, hbridge, hn]
        · simp [hc, hd, hall, hbridge, hn]

/-! ## Claim C4 -/

/-- Claim C4 (code bug): the state reached from a fresh one-task
workflow by the transition sequence `start_task "a"; retry_task "a"` —
exactly what the driver performs when the first attempt fails with
retries remaining — has `"a"` in both `pending_tasks` and
`current_tasks`, so the four membership sets are not pairwise disjoint
(`retry_task` re-appends to `pending` without removing from `current`). -/
theorem c4_retry_breaks_disjointness :
    ("a" ∈ (applyOps (SM.init wSingle)
        [.start "a", .retry "a"]).state.pending_tasks) ∧
    ("a" ∈ (applyOps (SM.init wSingle)
        [.start "a", .retry "a"]).state.current_tasks) ∧
    ¬ pairwiseDisjoint (applyOps (SM.init wSingle)
        [.start "a", .retry "a"]).state := by
  unfold pairwiseDisjoint
  decide

/-! ## Claim C9 -/

/-- Claim C9 counterexample: skip a pending task that already has a
`TaskResult` (started, then retried). The claim asserts the terminal
result has `started_at` and `completed_at` both set and equal; the code
only overwrites status and error, leaving `completed_at` unset. -/
theorem c9_counterexample :
    ("a" ∈ (applyOps (SM.init wSingle)
        [.start "a", .retry "a"]).state.pending_tasks) ∧
    ((alGet (applyOps (SM.init wSingle)
          [.start "a", .retry "a", .skip "a" "why"]).state.task_results
        "a").map (fun r => (r.status, r.error, r.started_at, r.completed_at))
      = some (.skipped, some "why", some 0, none)) := by
  decide

/-- Claim C9 (amended): for a task id in `pending_tasks`, `skip_task`
removes its first occurrence from `pending_tasks` and leaves a terminal
result with status `skipped` and error equal to the reason; when no
result existed, a fresh one is created with `started_at` and
`completed_at` both set (to two successive clock readings); when a
result already existed, its timestamps are left unchanged (in particular
`completed_at` may remain unset). -/
theorem c9_skip_task (sm : SM) (id reason : String)
    (hp : id ∈ sm.state.pending_tasks) :
    ((sm.skip_task id reason).state.pending_tasks
        = sm.state.pending_tasks.erase id) ∧
    ∃ r, alGet (sm.skip_task id reason).state.task_results id = some r ∧
      r.status = .skipped ∧ r.error = some reason ∧
      (alGet sm.state.task_results id = none →
        r.started_at = some sm.clock ∧ r.completed_at = some (sm.clock + 1)) ∧
      (∀ r0, alGet sm.state.task_results id = some r0 →
        r.started_at = r0.started_at ∧ r.completed_at = r0.completed_at) := by
  cases hres : alGet sm.state.task_results id with
  | none =>
      refine ⟨?_, ⟨{ task_id := id, status := .skipped, error := some reason,
                     started_at := some sm.clock,
                     completed_at := some (sm.clock + 1) }, ?_, rfl, rfl,
                   fun _ => ⟨rfl, rfl⟩,
                   fun r0 h0 => Option.noConfusion h0⟩⟩
      · simp [SM.skip_task, hres, SM.now, hp]
      · simp [SM.skip_task, hres, SM.now, hp, alGet_alSet_self]
  | some r0 =>
      refine ⟨?_, ⟨{ r0 with status := .skipped, error := some reason }, ?_,
                   rfl, rfl, fun hn => Option.noConfusion hn, ?_⟩⟩
      · simp [SM.skip_task, hres, SM.now, hp]
      · simp [SM.skip_task, hres, SM.now, hp, alGet_alSet_self]
      · intro r1 h1
        injection h1 with h2
        subst h2
        exact ⟨rfl, rfl⟩

/-! ## Preservation lemmas about the state transitions -/

theorem start_task_preserves (sm : SM) (id : String) :
    (sm.start_task id).state.failed_tasks = sm.state.failed_tasks ∧
    (sm.start_task id).state.status = sm.state.status ∧
    (sm.start_task id).workflow = sm.workflow := by
  cases h : alGet sm.state.task_results id <;>
    simp [SM.start_task, SM.now, h]

theorem complete_task_preserves (sm : SM) (id out : String)
    (ag : Option String) :
    (sm.complete_task id out ag).state.failed_tasks
        = sm.state.failed_tasks ∧
    (sm.complete_task id out ag).state.status = sm.state.status ∧
    (sm.complete_task id out ag).workflow = sm.workflow := by
  cases h : alGet sm.state.task_results id <;>
    simp [SM.complete_task, SM.now, h]

theorem start_task_result_isSome (sm : SM) (id : String) :
    (alGet (sm.start_task id).state.task_results id).isSome = true := by
  cases h : alGet sm.state.task_results id <;>
    simp [SM.start_task, SM.now, h, alGet_alSet_self]

theorem retry_task_result_isSome (sm : SM) (id : String)
    (h : (alGet sm.state.task_results id).isSome = true) :
    (alGet (sm.retry_task id).state.task_results id).isSome = true := by
  cases h2 : alGet sm.state.task_results id with
  | none => rw [h2] at h; cases h
  | some r => simp [SM.retry_task, h2, alGet_alSet_self]

theorem fail_task_sets_failed (sm : SM) (id e : String)
    (h : (alGet sm.state.task_results id).isSome = true) :
    ((alGet (sm.fail_task id e).state.task_results id).map (·.status)
        = some .failed) ∧
    ((alGet (sm.fail_task id e).state.task_results id).map (·.error)
        = some (some e)) := by
  cases heq : alGet sm.state.task_results id with
  | none => rw [heq] at h; cases h
  | some r0 => simp [SM.fail_task, heq, SM.now, alGet_alSet_self]

/-! ## Claim C1 -/

/-- The coordinator finishing step: the status it writes is `failed`
exactly when tasks failed and `continue_on_failure` is off, `completed`
otherwise; `partial` is never written. -/
theorem finishWorkflow_status (w : WorkflowDefinition) (os : OrchState) :
    ((finishWorkflow w os).sm.state.status = .failed ↔
      ((finishWorkflow w os).sm.state.failed_tasks ≠ [] ∧
        w.continue_on_failure = false)) ∧
    ((finishWorkflow w os).sm.state.status = .failed ∨
      (finishWorkflow w os).sm.state.status = .completed) := by
  unfold finishWorkflow
  by_cases hcond : (os.sm.has_failed_tasks && !w.continue_on_failure) = true
  · have h1 := (Bool.and_eq_true _ _).mp hcond
    have hf : os.sm.state.failed_tasks ≠ [] := by
      have h2 := h1.1
      simp only [SM.has_failed_tasks, Bool.not_eq_true'] at h2
      intro hnil
      rw [hnil] at h2
      cases h2
    have hcof : w.continue_on_failure = false := by
      have h2 := h1.2
      cases hc : w.continue_on_failure
      · rfl
      · rw [hc] at h2; cases h2
    rw [if_pos hcond]
    refine ⟨⟨fun _ => ⟨?_, hcof⟩, fun _ => ?_⟩, Or.inl ?_⟩
    · simpa [fireProgress, SM.fail_workflow, SM.now] using hf
    · simp [fireProgress, SM.fail_workflow, SM.now]
    · simp [fireProgress, SM.fail_workflow, SM.now]
  · have h2 : ¬(os.sm.state.failed_tasks ≠ [] ∧
        w.continue_on_failure = false) := by
      rintro ⟨hne, hcof⟩
      apply hcond
      have : os.sm.state.failed_tasks.isEmpty = false := by
        cases hl : os.sm.state.failed_tasks
        · exact absurd hl hne
        · simp
      simp [SM.has_failed_tasks, this, hcof]
    rw [if_neg hcond]
    refine ⟨⟨fun hst => ?_, fun hrhs => ?_⟩, Or.inr ?_⟩
    · simp [fireProgress, SM.complete_workflow, SM.now] at hst
    · exact absurd (by simpa [fireProgress, SM.complete_workflow, SM.now]
        using hrhs) h2
    · simp [fireProgress, SM.complete_workflow, SM.now]

/-- Claim C1 counterexample: continue-on-failure workflow where task `a`
fails every attempt and task `b` completes. The claim requires terminal
status `partial`; the code marks the workflow `completed` (it never
produces `partial`). -/
theorem c1_counterexample :
    ((alGet (executeWorkflow [] outcomeAFails wC1cx).sm.state.task_results
        "a").map (·.status) = some .failed) ∧
    ((alGet (executeWorkflow [] outcomeAFails wC1cx).sm.state.task_results
        "b").map (·.status) = some .completed) ∧
    (executeWorkflow [] outcomeAFails wC1cx).sm.state.status = .completed ∧
    claimC1Status wC1cx (executeWorkflow [] outcomeAFails wC1cx).sm.state
      = .partialDone ∧
    WStatus.completed ≠ WStatus.partialDone := by
  decide

/-- Claim C1 (amended): for every run of `execute_workflow` that finishes
without a workflow-level timeout or executor exception, the terminal
status is `failed` iff some task ended in `failed_tasks` and
`continue_on_failure` is false, and `completed` otherwise; the declared
status `partial` is never produced. -/
theorem c1_final_status (cfg : List AgentRouting) (outcome : AgentOutcome)
    (w : WorkflowDefinition) (auto_strategy : Bool) :
    ((executeWorkflow cfg outcome w auto_strategy).sm.state.status = .failed ↔
      ((executeWorkflow cfg outcome w auto_strategy).sm.state.failed_tasks
          ≠ [] ∧ w.continue_on_failure = false)) ∧
    ((executeWorkflow cfg outcome w auto_strategy).sm.state.status = .failed ∨
      (executeWorkflow cfg outcome w auto_strategy).sm.state.status
        = .completed) := by
  unfold executeWorkflow
  exact finishWorkflow_status w _

/-! ## Claim C2 -/

/-- A task whose first attempt succeeds drives exactly one agent
invocation and leaves `failed_tasks` unchanged. -/
theorem executeTask_first_success (cfg : List AgentRouting)
    (outcome : AgentOutcome) (os : OrchState) (task : TaskDefinition)
    (hok : ∀ a i, (outcome task a i).isOk = true) :
    (executeTask cfg outcome os task).trace.invocations
        = os.trace.invocations + 1 ∧
    (executeTask cfg outcome os task).sm.state.failed_tasks
        = os.sm.state.failed_tasks := by
  unfold executeTask driverLoop
  obtain ⟨v, hv⟩ : ∃ v,
      outcome task (routeTask cfg os.load task) 0 = .ok v := by
    cases h : outcome task (routeTask cfg os.load task) 0 with
    | ok v => exact ⟨v, rfl⟩
    | error e => have := hok (routeTask cfg os.load task) 0; rw [h] at this;
                 cases this
  rw [hv]
  have hc := complete_task_preserves
    ((os.sm.start_task task.id)) task.id v
    (some (routeTask cfg os.load task))
  have hs := start_task_preserves os.sm task.id
  simp [fireProgress, hc.1, hs.1]

/-- The sequential executor under an always-succeeding agent performs
exactly one invocation per task (no cache short-circuits it). -/
theorem sequential_fold_success (cfg : List AgentRouting)
    (outcome : AgentOutcome)
    (hok : ∀ t a i, (outcome t a i).isOk = true) :
    ∀ (tasks : List TaskDefinition) (os : OrchState),
      os.sm.state.failed_tasks = [] →
      ((tasks.foldl
          (fun os task =>
            if !os.sm.workflow.continue_on_failure && os.sm.has_failed_tasks
            then { os with
                   sm := os.sm.skip_task task.id "Previous task failed" }
            else executeTask cfg outcome os task)
          os).trace.invocations = os.trace.invocations + tasks.length) ∧
      (tasks.foldl
          (fun os task =>
            if !os.sm.workflow.continue_on_failure && os.sm.has_failed_tasks
            then { os with
                   sm := os.sm.skip_task task.id "Previous task failed" }
            else executeTask cfg outcome os task)
          os).sm.state.failed_tasks = [] := by
  intro tasks
  induction tasks with
  | nil => intro os h; exact ⟨rfl, h⟩
  | cons t ts ih =>
      intro os h
      have hnf : os.sm.has_failed_tasks = false := by
        simp [SM.has_failed_tasks, h]
      have hstep := executeTask_first_success cfg outcome os t
        (fun a i => hok t a i)
      have hcond : (!os.sm.workflow.continue_on_failure &&
          os.sm.has_failed_tasks) = false := by
        simp [hnf]
      simp only [List.foldl_cons, hcond, Bool.false_eq_true, if_false]
      have := ih (executeTask cfg outcome os t) (hstep.2.trans h)
      refine ⟨?_, this.2⟩
      rw [this.1, hstep.1, List.length_cons]
      omega

/-- Claim C2 counterexample: rerunning the two-task DAG chain of the
claim scenario. `execute_workflow` takes no cache and the driver consults
none, so the second of two identical runs again performs one agent
invocation per task: 2, where the claim predicts 0. -/
theorem c2_counterexample :
    (executeWorkflow [] outcomeEcho wChain).trace.invocations = 2 ∧
    (executeWorkflow [] outcomeEcho wChain
      = executeWorkflow [] outcomeEcho wChain) ∧
    (2 : Nat) ≠ 0 := by
  constructor
  · decide
  · exact ⟨rfl, by decide⟩

/-- Claim C2 (amended): the per-task driver performs no cache lookup and
never short-circuits the agent call: under the sequential strategy with
an agent that succeeds on first attempts, every run of the workflow -
including a rerun of an identical workflow - performs exactly one agent
invocation per task, never zero. -/
theorem finishWorkflow_trace_invocations (w : WorkflowDefinition)
    (os : OrchState) :
    (finishWorkflow w os).trace.invocations = os.trace.invocations := by
  unfold finishWorkflow
  split <;> simp [fireProgress]

theorem c2_driver_no_cache (cfg : List AgentRouting) (outcome : AgentOutcome)
    (w : WorkflowDefinition)
    (hs : w.execution_strategy = .sequential)
    (hok : ∀ t a i, (outcome t a i).isOk = true) :
    (executeWorkflow cfg outcome w).trace.invocations = w.tasks.length := by
  have hinit : ({ sm := (SM.init w).start_workflow } :
      OrchState).sm.state.failed_tasks = [] := by
    simp [SM.init, SM.start_workflow, SM.now]
  have hfold := sequential_fold_success cfg outcome hok w.tasks
    { sm := (SM.init w).start_workflow } hinit
  unfold executeWorkflow
  rw [finishWorkflow_trace_invocations]
  simp only [Bool.false_eq_true, if_false, hs]
  unfold runExecutor sequentialExecute
  have hw : ({ sm := (SM.init w).start_workflow } :
      OrchState).sm.workflow.tasks = w.tasks := by
    simp [SM.init, SM.start_workflow, SM.now]
  rw [hw, hfold.1]
  simp

/-- Witness for the amended C2 theorem on the concrete two-task chain:
both runs of the identical workflow invoke the agent twice, not zero
times. -/
theorem c2_driver_no_cache_witness :
    (wChainSeq.execution_strategy = .sequential) ∧
    (∀ t a i, (outcomeEcho t a i).isOk = true) ∧
    (executeWorkflow [] outcomeEcho wChainSeq).trace.invocations
      = wChainSeq.tasks.length :=
  ⟨rfl, fun _ _ _ => rfl,
   c2_driver_no_cache [] outcomeEcho wChainSeq rfl (fun _ _ _ => rfl)⟩

/-! ## Claim C7 -/

/-- Invocation count of the retry loop when every attempt fails. -/
theorem driverLoop_fail_invocations (outcome : AgentOutcome)
    (task : TaskDefinition) (agent_type : String)
    (hfail : ∀ i, (outcome task agent_type i).isOk = false) :
    ∀ (n attempt : Nat) (delay : ℚ) (os : OrchState),
      (driverLoop outcome task agent_type attempt (n + 1) delay
        os).trace.invocations = os.trace.invocations + (n + 1) := by
  intro n
  induction n with
  | zero =>
      intro attempt delay os
      obtain ⟨e, he⟩ : ∃ e, outcome task agent_type attempt = .error e := by
        cases h : outcome task agent_type attempt with
        | ok v => have := hfail attempt; rw [h] at this; cases this
        | error e => exact ⟨e, rfl⟩
      unfold driverLoop
      rw [he]
      simp [fireProgress]
  | succ n ih =>
      intro attempt delay os
      obtain ⟨e, he⟩ : ∃ e, outcome task agent_type attempt = .error e := by
        cases h : outcome task agent_type attempt with
        | ok v => have := hfail attempt; rw [h] at this; cases this
        | error e => exact ⟨e, rfl⟩
      unfold driverLoop
      rw [he]
      simp only [gt_iff_lt, Nat.succ_pos, if_true]
      rw [ih]
      simp [fireProgress]
      omega

/-- Retry-call count of the retry loop when every attempt fails. -/
theorem driverLoop_fail_retryCalls (outcome : AgentOutcome)
    (task : TaskDefinition) (agent_type : String)
    (hfail : ∀ i, (outcome task agent_type i).isOk = false) :
    ∀ (n attempt : Nat) (delay : ℚ) (os : OrchState),
      (driverLoop outcome task agent_type attempt (n + 1) delay
        os).trace.retryCalls = os.trace.retryCalls + n := by
  intro n
  induction n with
  | zero =>
      intro attempt delay os
      obtain ⟨e, he⟩ : ∃ e, outcome task agent_type attempt = .error e := by
        cases h : outcome task agent_type attempt with
        | ok v => have := hfail attempt; rw [h] at this; cases this
        | error e => exact ⟨e, rfl⟩
      unfold driverLoop
      rw [he]
      simp [fireProgress]
  | succ n ih =>
      intro attempt delay os
      obtain ⟨e, he⟩ : ∃ e, outcome task agent_type attempt = .error e := by
        cases h : outcome task agent_type attempt with
        | ok v => have := hfail attempt; rw [h] at this; cases this
        | error e => exact ⟨e, rfl⟩
      unfold driverLoop
      rw [he]
      simp only [gt_iff_lt, Nat.succ_pos, if_true]
      rw [ih]
      simp [fireProgress]
      omega

/-- Sleep sequence of the retry loop when every attempt fails: exactly
the claimed backoff recurrence. -/
theorem driverLoop_fail_sleeps (outcome : AgentOutcome)
    (task : TaskDefinition) (agent_type : String)
    (hfail : ∀ i, (outcome task agent_type i).isOk = false) :
    ∀ (n attempt : Nat) (delay : ℚ) (os : OrchState),
      (driverLoop outcome task agent_type attempt (n + 1) delay
        os).trace.sleeps = os.trace.sleeps ++ backoffDelays n delay
          task.retry_config.backoff_multiplier
          task.retry_config.max_delay := by
  intro n
  induction n with
  | zero =>
      intro attempt delay os
      obtain ⟨e, he⟩ : ∃ e, outcome task agent_type attempt = .error e := by
        cases h : outcome task agent_type attempt with
        | ok v => have := hfail attempt; rw [h] at this; cases this
        | error e => exact ⟨e, rfl⟩
      unfold driverLoop
      rw [he]
      simp [fireProgress, backoffDelays]
  | succ n ih =>
      intro attempt delay os
      obtain ⟨e, he⟩ : ∃ e, outcome task agent_type attempt = .error e := by
        cases h : outcome task agent_type attempt with
        | ok v => have := hfail attempt; rw [h] at this; cases this
        | error e => exact ⟨e, rfl⟩
      unfold driverLoop
      rw [he]
      simp only [gt_iff_lt, Nat.succ_pos, if_true]
      rw [ih]
      simp [fireProgress, backoffDelays]

/-- Terminal task status of the retry loop when every attempt fails. -/
theorem driverLoop_fail_result (outcome : AgentOutcome)
    (task : TaskDefinition) (agent_type : String)
    (hfail : ∀ i, (outcome task agent_type i).isOk = false) :
    ∀ (n attempt : Nat) (delay : ℚ) (os : OrchState),
      (alGet os.sm.state.task_results task.id).isSome = true →
      (alGet (driverLoop outcome task agent_type attempt (n + 1) delay
          os).sm.state.task_results task.id).map (·.status)
        = some .failed := by
  intro n
  induction n with
  | zero =>
      intro attempt delay os hsome
      obtain ⟨e, he⟩ : ∃ e, outcome task agent_type attempt = .error e := by
        cases h : outcome task agent_type attempt with
        | ok v => have := hfail attempt; rw [h] at this; cases this
        | error e => exact ⟨e, rfl⟩
      unfold driverLoop
      rw [he]
      simp only [gt_iff_lt, Nat.lt_irrefl, if_false]
      have := (fail_task_sets_failed _ task.id e hsome).1
      simpa [fireProgress] using this
  | succ n ih =>
      intro attempt delay os hsome
      obtain ⟨e, he⟩ : ∃ e, outcome task agent_type attempt = .error e := by
        cases h : outcome task agent_type attempt with
        | ok v => have := hfail attempt; rw [h] at this; cases this
        | error e => exact ⟨e, rfl⟩
      unfold driverLoop
      rw [he]
      simp only [gt_iff_lt, Nat.succ_pos, if_true]
      apply ih
      simpa [fireProgress] using
        retry_task_result_isSome os.sm task.id hsome

/-- Claim C7 (confirmed): when every attempt fails, the driver makes
exactly `max_retries + 1` agent invocations, calls `retry_task` exactly
`max_retries` times, sleeps the delays `d_0 = initial_delay`,
`d_(k+1) = min(d_k * backoff_multiplier, max_delay)`, and the task ends
`failed`. -/
theorem c7_retry_exhaustion (cfg : List AgentRouting)
    (outcome : AgentOutcome) (os : OrchState) (task : TaskDefinition)
    (hfail : ∀ a i, (outcome task a i).isOk = false) :
    ((executeTask cfg outcome os task).trace.invocations
        = os.trace.invocations + (task.retry_config.max_retries + 1)) ∧
    ((executeTask cfg outcome os task).trace.retryCalls
        = os.trace.retryCalls + task.retry_config.max_retries) ∧
    ((executeTask cfg outcome os task).trace.sleeps
        = os.trace.sleeps ++ backoffDelays task.retry_config.max_retries
            task.retry_config.initial_delay
            task.retry_config.backoff_multiplier
            task.retry_config.max_delay) ∧
    (alGet (executeTask cfg outcome os task).sm.state.task_results
        task.id).map (·.status) = some .failed := by
  unfold executeTask
  refine ⟨?_, ?_, ?_, ?_⟩
  · rw [driverLoop_fail_invocations outcome task (routeTask cfg os.load task)
      (fun i => hfail _ i)]
    simp [fireProgress]
  · rw [driverLoop_fail_retryCalls outcome task (routeTask cfg os.load task)
      (fun i => hfail _ i)]
    simp [fireProgress]
  · rw [driverLoop_fail_sleeps outcome task (routeTask cfg os.load task)
      (fun i => hfail _ i)]
    simp [fireProgress]
  · apply driverLoop_fail_result outcome task (routeTask cfg os.load task)
      (fun i => hfail _ i)
    simpa [fireProgress] using start_task_result_isSome os.sm task.id

/-- Witness for C7 at `max_retries = 0`: exactly one attempt, no
`retry_task` call, no sleep, task failed. -/
theorem c7_retry_exhaustion_witness :
    (∀ a i, (outcomeBoom taskNoRetry a i).isOk = false) ∧
    ((executeTask [] outcomeBoom { sm := SM.init wSingle }
        taskNoRetry).trace.invocations = ({ sm := SM.init wSingle } :
          OrchState).trace.invocations +
          (taskNoRetry.retry_config.max_retries + 1)) ∧
    ((executeTask [] outcomeBoom { sm := SM.init wSingle }
        taskNoRetry).trace.retryCalls = ({ sm := SM.init wSingle } :
          OrchState).trace.retryCalls + taskNoRetry.retry_config.max_retries) ∧
    ((executeTask [] outcomeBoom { sm := SM.init wSingle }
        taskNoRetry).trace.sleeps = ({ sm := SM.init wSingle } :
          OrchState).trace.sleeps
          ++ backoffDelays taskNoRetry.retry_config.max_retries
            taskNoRetry.retry_config.initial_delay
            taskNoRetry.retry_config.backoff_multiplier
            taskNoRetry.retry_config.max_delay) ∧
    (alGet (executeTask [] outcomeBoom { sm := SM.init wSingle }
          taskNoRetry).sm.state.task_results taskNoRetry.id).map (·.status)
        = some .failed :=
  ⟨fun _ _ => rfl,
   (c7_retry_exhaustion [] outcomeBoom { sm := SM.init wSingle } taskNoRetry
     (fun _ _ => rfl)).1,
   (c7_retry_exhaustion [] outcomeBoom { sm := SM.init wSingle } taskNoRetry
     (fun _ _ => rfl)).2.1,
   (c7_retry_exhaustion [] outcomeBoom { sm := SM.init wSingle } taskNoRetry
     (fun _ _ => rfl)).2.2.1,
   (c7_retry_exhaustion [] outcomeBoom { sm := SM.init wSingle } taskNoRetry
     (fun _ _ => rfl)).2.2.2⟩

/-- Witness for the amended C9 theorem at a concrete state: the fresh
one-task workflow has `"a"` pending and no result, so skipping creates
the fresh timestamped skipped result. -/
theorem c9_skip_task_witness :
    ("a" ∈ (SM.init wSingle).state.pending_tasks) ∧
    ((((SM.init wSingle).skip_task "a" "why").state.pending_tasks
        = (SM.init wSingle).state.pending_tasks.erase "a") ∧
    ∃ r, alGet ((SM.init wSingle).skip_task "a" "why").state.task_results
          "a" = some r ∧
      r.status = .skipped ∧ r.error = some "why" ∧
      (alGet (SM.init wSingle).state.task_results "a" = none →
        r.started_at = some (SM.init wSingle).clock ∧
        r.completed_at = some ((SM.init wSingle).clock + 1)) ∧
      (∀ r0, alGet (SM.init wSingle).state.task_results "a" = some r0 →
        r.started_at = r0.started_at ∧ r.completed_at = r0.completed_at)) :=
  ⟨by decide, c9_skip_task (SM.init wSingle) "a" "why" (by decide)⟩


/-! ## Claim C5 -/

set_option maxRecDepth 1000000 in
/-- Claim C5 (code bug): with the default memory cache, `put` stores for
`taskBdep` a dependency key that is the full 64-character SHA-256 digest
of the key-components JSON of `TaskDefinition(id="A", description="")`,
while `invalidate_dependents("A")` searches for the 16-character prefix
of the digest of the bare string `"A"`. They never match: the call
removes nothing and returns 0, where the claim requires the entry to be
removed from the memory tier and the count to be at least 1. -/
theorem c5_invalidate_dependents_noop :
    ((((ResultCache.put { config := {} } taskBdep resB
        [("A", resA)]).invalidate_dependents "A").1 = 0) ∧
     (alHas (((ResultCache.put { config := {} } taskBdep resB
        [("A", resA)]).invalidate_dependents "A").2.memory_cache) keyBdep
       = true) ∧
     ((ResultCache.put { config := {} } taskBdep resB
        [("A", resA)]).memory_cache.map (fun p => p.2.dependency_keys))
       = [[CacheKey.generate { id := "A", description := "" } [] false]] ∧
     (sha256Hex "A").take 16 = "559aead08264d579") := by
  decide

/-! ## Claim C8 -/

theorem charsLe_total (a b : List Char) :
    charsLe a b = true ∨ charsLe b a = true := by
  induction a generalizing b with
  | nil => left; rfl
  | cons x xs ih =>
      cases b with
      | nil => right; rfl
      | cons y ys =>
          by_cases h1 : x.toNat < y.toNat
          · left; simp [charsLe, h1]
          · by_cases h2 : y.toNat < x.toNat
            · right; simp [charsLe, h2]
            · rcases ih ys with h | h
              · left; simp [charsLe, h1, h2, h]
              · right; simp [charsLe, h1, h2, h]

theorem charsLe_trans {a b c : List Char} (h1 : charsLe a b = true)
    (h2 : charsLe b c = true) : charsLe a c = true := by
  induction a generalizing b c with
  | nil => rfl
  | cons x xs ih =>
      cases b with
      | nil => simp [charsLe] at h1
      | cons y ys =>
          cases c with
          | nil => simp [charsLe] at h2
          | cons z zs =>
              simp only [charsLe] at h1 h2 ⊢
              split_ifs at h1 h2 ⊢ <;>
                first
                  | rfl
                  | omega
                  | exact ih h1 h2

theorem charsLe_antisymm {a b : List Char} (h1 : charsLe a b = true)
    (h2 : charsLe b a = true) : a = b := by
  induction a generalizing b with
  | nil =>
      cases b with
      | nil => rfl
      | cons y ys => simp [charsLe] at h2
  | cons x xs ih =>
      cases b with
      | nil => simp [charsLe] at h1
      | cons y ys =>
          simp only [charsLe] at h1 h2
          split_ifs at h1 h2 <;> first
            | omega
            | (refine congrArg₂ (· :: ·) ?_ (ih h1 h2)
               apply Char.eq_of_val_eq
               apply UInt32.ext
               have hxy : x.toNat = y.toNat := by omega
               exact hxy)

theorem strLe_total (a b : String) : strLe a b = true ∨ strLe b a = true :=
  charsLe_total a.data b.data

theorem strLe_trans {a b c : String} (h1 : strLe a b = true)
    (h2 : strLe b c = true) : strLe a c = true :=
  charsLe_trans h1 h2

theorem strLe_antisymm {a b : String} (h1 : strLe a b = true)
    (h2 : strLe b a = true) : a = b := by
  cases a with
  | mk da =>
      cases b with
      | mk db => exact congrArg String.mk (charsLe_antisymm h1 h2)

theorem insSorted_perm {α : Type} (le : α → α → Bool) (x : α)
    (l : List α) : (insSorted le x l).Perm (x :: l) := by
  induction l with
  | nil => exact List.Perm.refl _
  | cons y ys ih =>
      by_cases h : le x y = true
      · simp [insSorted, h]
      · simp only [insSorted, h, if_false, Bool.false_eq_true]
        exact ((ih.cons y).trans (List.Perm.swap x y ys))

theorem stableSort_perm {α : Type} (le : α → α → Bool) (l : List α) :
    (stableSort le l).Perm l := by
  induction l with
  | nil => exact List.Perm.refl _
  | cons x xs ih =>
      exact (insSorted_perm le x (stableSort le xs)).trans (ih.cons x)

theorem insSorted_pairwise {α : Type} (le : α → α → Bool)
    (htotal : ∀ a b, le a b = true ∨ le b a = true)
    (htrans : ∀ a b c, le a b = true → le b c = true → le a c = true)
    (x : α) (l : List α)
    (hl : l.Pairwise (fun a b => le a b = true)) :
    (insSorted le x l).Pairwise (fun a b => le a b = true) := by
  induction l with
  | nil => simp [insSorted]
  | cons y ys ih =>
      rcases List.pairwise_cons.mp hl with ⟨hy, hys⟩
      by_cases h : le x y = true
      · simp only [insSorted, h, if_true]
        refine List.pairwise_cons.mpr ⟨?_, hl⟩
        intro z hz
        rcases List.mem_cons.mp hz with rfl | hz
        · exact h
        · exact htrans x y z h (hy z hz)
      · simp only [insSorted, h, if_false, Bool.false_eq_true]
        refine List.pairwise_cons.mpr ⟨?_, ih hys⟩
        intro z hz
        have hz2 := (insSorted_perm le x ys).mem_iff.mp hz
        rcases List.mem_cons.mp hz2 with rfl | hz2
        · rcases htotal z y with h3 | h3
          · exact absurd h3 h
          · exact h3
        · exact hy z hz2

theorem stableSort_pairwise {α : Type} (le : α → α → Bool)
    (htotal : ∀ a b, le a b = true ∨ le b a = true)
    (htrans : ∀ a b c, le a b = true → le b c = true → le a c = true)
    (l : List α) :
    (stableSort le l).Pairwise (fun a b => le a b = true) := by
  induction l with
  | nil => simp [stableSort]
  | cons x xs ih => exact insSorted_pairwise le htotal htrans x _ ih

/-- Two permuted association lists with (the same) duplicate-free keys
have equal key-sorted forms. -/
theorem stableSort_key_eq (l1 l2 : List (String × String))
    (hperm : l1.Perm l2) (hnd : (l1.map Prod.fst).Nodup) :
    stableSort (fun p q => strLe p.1 q.1) l1
      = stableSort (fun p q => strLe p.1 q.1) l2 := by
  have le := fun (p q : String × String) => strLe p.1 q.1
  have htotal : ∀ a b : String × String,
      strLe a.1 b.1 = true ∨ strLe b.1 a.1 = true :=
    fun a b => strLe_total a.1 b.1
  have htrans : ∀ a b c : String × String, strLe a.1 b.1 = true →
      strLe b.1 c.1 = true → strLe a.1 c.1 = true :=
    fun a b c => strLe_trans
  have hp1 := stableSort_pairwise (fun p q => strLe p.1 q.1) htotal htrans l1
  have hp2 := stableSort_pairwise (fun p q => strLe p.1 q.1) htotal htrans l2
  have hperm12 : (stableSort (fun p q => strLe p.1 q.1) l1).Perm
      (stableSort (fun p q => strLe p.1 q.1) l2) :=
    ((stableSort_perm _ l1).trans hperm).trans (stableSort_perm _ l2).symm
  have hnd1 : ((stableSort (fun p q => strLe p.1 q.1) l1).map
      Prod.fst).Nodup :=
    (((stableSort_perm _ l1).map Prod.fst).nodup_iff).mpr hnd
  have hnd2 : ((stableSort (fun p q => strLe p.1 q.1) l2).map
      Prod.fst).Nodup := (hperm12.map Prod.fst).nodup_iff.mp hnd1
  have hne1 : (stableSort (fun p q => strLe p.1 q.1) l1).Pairwise
      (fun p q => p.1 ≠ q.1) := List.pairwise_map.mp hnd1
  have hne2 : (stableSort (fun p q => strLe p.1 q.1) l2).Pairwise
      (fun p q => p.1 ≠ q.1) := List.pairwise_map.mp hnd2
  have hs1 : (stableSort (fun p q => strLe p.1 q.1) l1).Pairwise
      (fun p q => strLe p.1 q.1 = true ∧ p.1 ≠ q.1) :=
    hp1.and hne1
  have hs2 : (stableSort (fun p q => strLe p.1 q.1) l2).Pairwise
      (fun p q => strLe p.1 q.1 = true ∧ p.1 ≠ q.1) :=
    hp2.and hne2
  haveI : IsAntisymm (String × String)
      (fun p q => strLe p.1 q.1 = true ∧ p.1 ≠ q.1) :=
    ⟨fun a b h1 h2 => absurd (strLe_antisymm h1.1 h2.1) h1.2⟩
  exact List.eq_of_perm_of_sorted hperm12 hs1 hs2

/-- Claim C8 (confirmed): the cache key is a deterministic function of
its arguments: reordering the (duplicate-free) parameter keys does not
change it, and with `include_dependencies = false` it does not depend on
the dependency results at all. -/
theorem c8_cache_key (t : TaskDefinition) (params2 : List (String × String))
    (deps deps2 : List (String × TaskResult)) (incl : Bool)
    (hperm : t.parameters.Perm params2)
    (hnd : (t.parameters.map Prod.fst).Nodup) :
    (CacheKey.generate { t with parameters := params2 } deps incl
       = CacheKey.generate t deps incl) ∧
    CacheKey.generate t deps false = CacheKey.generate t deps2 false := by
  constructor
  · have hmapnd : ((params2.map fun p => (p.1, jsonStr p.2)).map
        Prod.fst).Nodup := by
      have : (params2.map fun p => (p.1, jsonStr p.2)).map Prod.fst
          = params2.map Prod.fst := by
        simp [List.map_map, Function.comp]
      rw [this]
      exact ((hperm.map Prod.fst).nodup_iff).mp hnd
    have hsorteq : stableSort (fun p q => strLe p.1 q.1)
        (params2.map fun p => (p.1, jsonStr p.2))
        = stableSort (fun p q => strLe p.1 q.1)
          (t.parameters.map fun p => (p.1, jsonStr p.2)) :=
      stableSort_key_eq _ _ ((hperm.map _).symm) hmapnd
    have hobj : jsonObjSorted (params2.map fun p => (p.1, jsonStr p.2))
        = jsonObjSorted (t.parameters.map fun p => (p.1, jsonStr p.2)) := by
      unfold jsonObjSorted
      rw [hsorteq]
    unfold CacheKey.generate cacheKeyJson
    rw [hobj]
  · rfl

/-- Witness for C8 at the concrete task with two parameters, their
reordering, and two distinct dependency maps. -/
theorem c8_cache_key_witness :
    (taskParams.parameters.Perm paramsBA) ∧
    ((taskParams.parameters.map Prod.fst).Nodup) ∧
    ((CacheKey.generate { taskParams with parameters := paramsBA }
        [("A", resA)] true
       = CacheKey.generate taskParams [("A", resA)] true) ∧
    CacheKey.generate taskParams [("A", resA)] false
      = CacheKey.generate taskParams [("X", resB)] false) :=
  ⟨(List.Perm.swap ("b", "2") ("a", "1") []),
   by decide,
   c8_cache_key taskParams paramsBA [("A", resA)] [("X", resB)] true
     (List.Perm.swap ("b", "2") ("a", "1") []) (by decide)⟩

/-! ## Claim C6 -/

theorem claimKeyLt_iff (load : List (String × Nat))
    (f : AgentRouting → Nat) (x y : AgentRouting) :
    claimKeyLt load f x y = true ↔
      (loadOf load x.agent_type < loadOf load y.agent_type ∨
        (loadOf load x.agent_type = loadOf load y.agent_type ∧
          (y.priority < x.priority ∨
            (y.priority = x.priority ∧ f y < f x)))) := by
  unfold claimKeyLt
  split_ifs <;> (try simp) <;> omega

theorem routeKeyLe_iff (load : List (String × Nat)) (x y : AgentRouting) :
    routeKeyLe load x y = true ↔
      (loadOf load x.agent_type < loadOf load y.agent_type ∨
        (loadOf load x.agent_type = loadOf load y.agent_type ∧
          (y.priority < x.priority ∨
            (y.priority = x.priority ∧
              y.capabilities.length ≤ x.capabilities.length)))) := by
  unfold routeKeyLe
  split_ifs <;> (try simp) <;> omega

theorem claimKeyLt_irrefl (load : List (String × Nat))
    (f : AgentRouting → Nat) (a : AgentRouting) :
    claimKeyLt load f a a = false := by
  cases h : claimKeyLt load f a a
  · rfl
  · exfalso
    have := (claimKeyLt_iff load f a a).mp h
    omega

theorem claimKeyLt_trans_lem (load : List (String × Nat))
    (f : AgentRouting → Nat) (a b c : AgentRouting)
    (h1 : claimKeyLt load f a b = true)
    (h2 : claimKeyLt load f b c = true) :
    claimKeyLt load f a c = true := by
  rw [claimKeyLt_iff] at h1 h2 ⊢
  omega

theorem claimKeyLt_mix (load : List (String × Nat))
    (f : AgentRouting → Nat) (a b c : AgentRouting)
    (h1 : claimKeyLt load f b a = false)
    (h2 : claimKeyLt load f b c = true) :
    claimKeyLt load f a c = true := by
  have ha := claimKeyLt_iff load f b a
  rw [h1] at ha
  simp only [Bool.false_eq_true, false_iff] at ha
  rw [claimKeyLt_iff] at h2 ⊢
  omega

theorem routeKeyLe_eq_not (load : List (String × Nat))
    (x y : AgentRouting) :
    routeKeyLe load x y
      = !claimKeyLt load (fun a => a.capabilities.length) y x := by
  cases h1 : routeKeyLe load x y <;>
    cases h2 : claimKeyLt load (fun a => a.capabilities.length) y x <;>
      try rfl
  · exfalso
    have ha := routeKeyLe_iff load x y
    rw [h1] at ha
    simp only [Bool.false_eq_true, false_iff] at ha
    have hb := claimKeyLt_iff load (fun a => a.capabilities.length) y x
    rw [h2] at hb
    simp only [Bool.false_eq_true, false_iff] at hb
    simp only [not_or, not_and, not_lt] at ha hb
    omega
  · exfalso
    have ha := (routeKeyLe_iff load x y).mp h1
    have hb := (claimKeyLt_iff load (fun a => a.capabilities.length) y x).mp
      h2
    omega

theorem find?_congr_mem {α : Type} (p q : α → Bool) (l : List α)
    (h : ∀ a ∈ l, p a = q a) : l.find? p = l.find? q := by
  induction l with
  | nil => rfl
  | cons x xs ih =>
      have hx := h x (List.mem_cons_self x xs)
      cases hq : q x
      · rw [List.find?_cons_of_neg _ (by rw [hx, hq]; simp),
            List.find?_cons_of_neg _ (by rw [hq]; simp)]
        exact ih fun a ha => h a (List.mem_cons_of_mem x ha)
      · rw [List.find?_cons_of_pos _ (by rw [hx, hq]),
            List.find?_cons_of_pos _ (by rw [hq])]

/-- The head of the stable sort by a strict total comparison is the first
element that no other element strictly precedes - the characterization
used by the claim. -/
theorem stableSort_head_firstMin {α : Type} (lt : α → α → Bool)
    (hirr : ∀ a, lt a a = false)
    (htrans : ∀ a b c, lt a b = true → lt b c = true → lt a c = true)
    (hmix : ∀ a b c, lt b a = false → lt b c = true → lt a c = true) :
    ∀ l : List α,
      (stableSort (fun a b => !lt b a) l).head? = firstMinBy lt l := by
  intro l
  induction l with
  | nil => rfl
  | cons x xs ih =>
      simp only [stableSort]
      cases hs : stableSort (fun a b => !lt b a) xs with
      | nil =>
          have hxs : xs = [] := by
            have hp := stableSort_perm (fun a b => !lt b a) xs
            rw [hs] at hp
            exact (hp.symm).eq_nil
          subst hxs
          simp [insSorted, firstMinBy, List.find?, hirr x]
      | cons h t =>
          rw [hs] at ih
          have hfind : List.find?
              (fun z => xs.all fun y => !lt y z) xs = some h := by
            simpa [firstMinBy] using ih.symm
          have hhmem : h ∈ xs := List.mem_of_find?_eq_some hfind
          have hhall : (xs.all fun y => !lt y h) = true := by
            have := List.find?_some hfind
            simpa using this
          have hhally : ∀ y ∈ xs, lt y h = false := by
            intro y hy
            have := List.all_eq_true.mp hhall y hy
            simpa using this
          by_cases hxh : lt h x = true
          · have hle : (!lt h x) = false := by rw [hxh]; rfl
            have hlhs : (insSorted (fun a b => !lt b a) x
                (h :: t)).head? = some h := by
              simp [insSorted, hle]
            rw [hlhs]
            have hpx : ((x :: xs).all fun y => !lt y x) = false := by
              refine List.all_eq_false.mpr ⟨h, List.mem_cons_of_mem x hhmem,
                ?_⟩
              simp [hxh]
            have hstep : firstMinBy lt (x :: xs)
                = List.find? (fun z => (x :: xs).all fun y => !lt y z) xs :=
              by
              unfold firstMinBy
              rw [List.find?_cons_of_neg _ (by rw [hpx]; simp)]
            rw [hstep]
            have hcongr : List.find?
                  (fun z => (x :: xs).all fun y => !lt y z) xs
                = List.find? (fun z => xs.all fun y => !lt y z) xs := by
              apply find?_congr_mem
              intro z hz
              cases hzs : (xs.all fun y => !lt y z)
              · simp [List.all_cons, hzs]
              · have hz2 : ∀ y ∈ xs, lt y z = false := by
                  intro y hy
                  have := List.all_eq_true.mp hzs y hy
                  simpa using this
                have hxz : lt x z = false := by
                  cases hxz : lt x z
                  · rfl
                  · exfalso
                    have := htrans h x z hxh hxz
                    rw [hz2 h hhmem] at this
                    cases this
                simp [List.all_cons, hxz, hzs]
            rw [hcongr, hfind]
          · have hxhf : lt h x = false := by
              cases hq : lt h x
              · rfl
              · exact absurd hq hxh
            have hle : (!lt h x) = true := by rw [hxhf]; rfl
            have hlhs : (insSorted (fun a b => !lt b a) x
                (h :: t)).head? = some x := by
              simp [insSorted, hle]
            rw [hlhs]
            have hpx : ((x :: xs).all fun y => !lt y x) = true := by
              refine List.all_eq_true.mpr ?_
              intro y hy
              rcases List.mem_cons.mp hy with rfl | hy2
              · simp [hirr y]
              · have hyh := hhally y hy2
                cases hq : lt y x
                · simp
                · exfalso
                  have := hmix h y x hyh hq
                  rw [hxhf] at this
                  cases this
            unfold firstMinBy
            rw [List.find?_cons_of_pos _ (by rw [hpx])]

/-- Claim C6 counterexample: with two equally loaded, equal-priority
agents - `A` providing two distinct capabilities, `B` listing one
capability three times - the code prefers `B` (it sorts by the raw
capability-list length) while the claim, read as capability-set size,
prefers `A`. -/
theorem c6_counterexample :
    routeTask cfgDupCaps [] taskPlain = "B" ∧
    claimC6Route cfgDupCaps [] taskPlain = "A" ∧
    ("B" : String) ≠ "A" := by
  refine ⟨by decide, by decide, by decide⟩

/-- Claim C6 (amended): `route_task` returns the explicitly set
(non-empty) `agent_type` verbatim; otherwise, with no capability-superset
executor it returns `general-purpose`; otherwise it returns the first
element of the suitable executors - restricted to those under their
concurrency cap whenever that restriction is non-empty - ordered by
ascending load, then descending priority, then descending length of the
capability list (duplicates counted, as the source computes it). -/
theorem c6_route_selection (cfg : List AgentRouting)
    (load : List (String × Nat)) (task : TaskDefinition) :
    routeTask cfg load task = claimC6RouteAmended cfg load task := by
  unfold routeTask claimC6RouteAmended claimRoute selectBestAgent
    findSuitableAgents routerMatches
  have hf : routeKeyLe load = fun x y =>
      !claimKeyLt load (fun a => a.capabilities.length) y x := by
    funext x y
    exact routeKeyLe_eq_not load x y
  rw [hf]
  simp only [stableSort_head_firstMin
    (claimKeyLt load (fun a => a.capabilities.length))
    (claimKeyLt_irrefl load _)
    (claimKeyLt_trans_lem load _)
    (claimKeyLt_mix load _)]

/-! ## Claim C3: association-list and graph-construction lemmas -/

theorem alKeys_cons {α : Type} (p : String × α) (rest : List (String × α)) :
    alKeys (p :: rest) = p.1 :: alKeys rest := rfl

theorem alGet_isSome_iff {α : Type} (m : List (String × α)) (k : String) :
    (alGet m k).isSome = true ↔ k ∈ alKeys m := by
  induction m with
  | nil => simp [alGet, alKeys]
  | cons p rest ih =>
      obtain ⟨pk, pv⟩ := p
      rw [alKeys_cons]
      by_cases h : pk = k
      · subst h
        simp [alGet]
      · rw [alGet, if_neg h, ih, List.mem_cons]
        constructor
        · intro hm; exact Or.inr hm
        · rintro (hm | hm)
          · exact absurd hm.symm h
          · exact hm

theorem alGet_mem {α : Type} {m : List (String × α)} {k : String}
    {v : α} (h : alGet m k = some v) : (k, v) ∈ m := by
  induction m with
  | nil => cases h
  | cons p rest ih =>
      obtain ⟨pk, pv⟩ := p
      by_cases hp : pk = k
      · rw [alGet, if_pos hp] at h
        injection h with h2
        subst h2
        subst hp
        exact List.mem_cons_self _ _
      · rw [alGet, if_neg hp] at h
        exact List.mem_cons_of_mem _ (ih h)

theorem alGet_of_mem_nodup {α : Type} {m : List (String × α)} {k : String}
    {v : α} (hnd : (alKeys m).Nodup) (h : (k, v) ∈ m) :
    alGet m k = some v := by
  induction m with
  | nil => cases h
  | cons p rest ih =>
      obtain ⟨pk, pv⟩ := p
      rw [alKeys_cons] at hnd
      have hnd2 := List.nodup_cons.mp hnd
      rcases List.mem_cons.mp h with he | h2
      · injection he with he1 he2
        subst he1
        subst he2
        rw [alGet, if_pos rfl]
      · have hk : k ∈ alKeys rest := List.mem_map_of_mem Prod.fst h2
        have hp : pk ≠ k := fun he => hnd2.1 (he ▸ hk)
        rw [alGet, if_neg hp]
        exact ih hnd2.2 h2

theorem alSet_same {α : Type} {m : List (String × α)} {k : String}
    {v : α} (h : alGet m k = some v) : alSet m k v = m := by
  induction m with
  | nil => cases h
  | cons p rest ih =>
      obtain ⟨pk, pv⟩ := p
      by_cases hp : pk = k
      · rw [alGet, if_pos hp] at h
        injection h with h2
        rw [alSet, if_pos hp, h2]
      · rw [alGet, if_neg hp] at h
        rw [alSet, if_neg hp, ih h]

theorem alKeys_alSet_mem {α : Type} (m : List (String × α)) (k : String)
    (v : α) (h : k ∈ alKeys m) : alKeys (alSet m k v) = alKeys m := by
  induction m with
  | nil => simp [alKeys] at h
  | cons p rest ih =>
      obtain ⟨pk, pv⟩ := p
      rw [alKeys_cons] at h
      by_cases hp : pk = k
      · rw [alSet, if_pos hp, alKeys_cons, alKeys_cons]
      · have h2 : k ∈ alKeys rest := by
          rcases List.mem_cons.mp h with he | he
          · exact absurd he.symm hp
          · exact he
        rw [alSet, if_neg hp, alKeys_cons, alKeys_cons, ih h2]

theorem alKeys_alSet_not_mem {α : Type} (m : List (String × α))
    (k : String) (v : α) (h : k ∉ alKeys m) :
    alKeys (alSet m k v) = alKeys m ++ [k] := by
  induction m with
  | nil => rfl
  | cons p rest ih =>
      obtain ⟨pk, pv⟩ := p
      rw [alKeys_cons] at h
      have hp : pk ≠ k := fun he => h (he ▸ List.mem_cons_self pk _)
      have h2 : k ∉ alKeys rest :=
        fun he => h (List.mem_cons_of_mem pk he)
      rw [alSet, if_neg hp, alKeys_cons, alKeys_cons, ih h2,
          List.cons_append]

theorem alKeys_nodup_alSet {α : Type} (m : List (String × α)) (k : String)
    (v : α) (h : (alKeys m).Nodup) : (alKeys (alSet m k v)).Nodup := by
  by_cases hk : k ∈ alKeys m
  · rw [alKeys_alSet_mem m k v hk]; exact h
  · rw [alKeys_alSet_not_mem m k v hk]
    simp [List.nodup_append, h, hk]

theorem foldl_alSet_keys_nodup {α β : Type} (f : β → String) (g : β → α) :
    ∀ (l : List β) (m : List (String × α)), (alKeys m).Nodup →
      (alKeys (l.foldl (fun acc b => alSet acc (f b) (g b)) m)).Nodup := by
  intro l
  induction l with
  | nil => intro m h; exact h
  | cons b bs ih =>
      intro m h
      exact ih _ (alKeys_nodup_alSet m (f b) (g b) h)

theorem foldl_alSet_keys_len {α β : Type} (f : β → String) (g : β → α) :
    ∀ (l : List β) (m : List (String × α)),
      (alKeys (l.foldl (fun acc b => alSet acc (f b) (g b)) m)).length
        ≤ (alKeys m).length + l.length := by
  intro l
  induction l with
  | nil => intro m; simp
  | cons b bs ih =>
      intro m
      refine le_trans (ih (alSet m (f b) (g b))) ?_
      by_cases hk : f b ∈ alKeys m
      · rw [alKeys_alSet_mem m _ _ hk]
        simp only [List.length_cons]
        omega
      · rw [alKeys_alSet_not_mem m _ _ hk]
        simp only [List.length_append, List.length_cons, List.length_nil]
        omega

theorem foldl_alSet_keys_congr {α β γ : Type} (f : β → String)
    (g1 : β → α) (g2 : β → γ) :
    ∀ (l : List β) (m1 : List (String × α)) (m2 : List (String × γ)),
      alKeys m1 = alKeys m2 →
      alKeys (l.foldl (fun acc b => alSet acc (f b) (g1 b)) m1)
        = alKeys (l.foldl (fun acc b => alSet acc (f b) (g2 b)) m2) := by
  intro l
  induction l with
  | nil => intro m1 m2 h; exact h
  | cons b bs ih =>
      intro m1 m2 h
      apply ih
      by_cases hk : f b ∈ alKeys m1
      · rw [alKeys_alSet_mem m1 _ _ hk, alKeys_alSet_mem m2 _ _ (h ▸ hk)]
        exact h
      · rw [alKeys_alSet_not_mem m1 _ _ hk,
            alKeys_alSet_not_mem m2 _ _ (h ▸ hk), h]

theorem buildGraph_keys_nodup (w : WorkflowDefinition) :
    (alKeys (buildDependencyGraph w)).Nodup := by
  unfold buildDependencyGraph
  exact foldl_alSet_keys_nodup (fun t : TaskDefinition => t.id)
    (fun t => t.depends_on) w.tasks [] (by simp [alKeys])

theorem buildGraph_keys_len (w : WorkflowDefinition) :
    (alKeys (buildDependencyGraph w)).length ≤ w.tasks.length := by
  unfold buildDependencyGraph
  have := foldl_alSet_keys_len (fun t : TaskDefinition => t.id)
    (fun t => t.depends_on) w.tasks []
  simpa [alKeys] using this

/-! ## Claim C3: in-degree initialization -/

theorem alGet_alSet_cases {α : Type} (m : List (String × α)) (k0 k : String)
    (v : α) :
    alGet (alSet m k0 v) k = some v ∨ alGet (alSet m k0 v) k = alGet m k := by
  by_cases h : k = k0
  · subst h
    exact Or.inl (alGet_alSet_self m k v)
  · exact Or.inr (alGet_alSet_ne m h v)

theorem zeros_values {β : Type} (f : β → String) :
    ∀ (l : List β) (m : List (String × Int)),
      (∀ k v, alGet m k = some v → v = 0) →
      ∀ k v, alGet (l.foldl (fun acc b => alSet acc (f b) 0) m) k = some v →
        v = 0 := by
  intro l
  induction l with
  | nil => intro m h; exact h
  | cons b bs ih =>
      intro m h
      apply ih
      intro k v hv
      rcases alGet_alSet_cases m (f b) k 0 with h2 | h2
      · rw [h2] at hv
        injection hv with hv2
        exact hv2.symm
      · rw [h2] at hv
        exact h k v hv

theorem phantom_fold_id :
    ∀ (deps : List String) (d : List (String × Int)),
      (∀ dep ∈ deps, dep ∈ alKeys d) →
      deps.foldl (fun d dep => alSet d dep ((alGet d dep).getD 0)) d = d := by
  intro deps
  induction deps with
  | nil => intro d _; rfl
  | cons dep rest ih =>
      intro d h
      have hmem := h dep (List.mem_cons_self dep rest)
      obtain ⟨c, hc⟩ := Option.isSome_iff_exists.mp
        ((alGet_isSome_iff d dep).mpr hmem)
      have hset : alSet d dep ((alGet d dep).getD 0) = d := by
        rw [hc]
        exact alSet_same hc
      rw [List.foldl_cons, hset]
      exact ih d fun x hx => h x (List.mem_cons_of_mem dep hx)

theorem incr_fold (k : String) :
    ∀ (l : List String) (d : List (String × Int)) (v0 : Int),
      alGet d k = some v0 →
      (alGet (l.foldl
          (fun d _ => alSet d k ((alGet d k).getD 0 + 1)) d) k
        = some (v0 + l.length)) ∧
      (∀ k2, k2 ≠ k →
        alGet (l.foldl
          (fun d _ => alSet d k ((alGet d k).getD 0 + 1)) d) k2
          = alGet d k2) ∧
      alKeys (l.foldl
          (fun d _ => alSet d k ((alGet d k).getD 0 + 1)) d)
        = alKeys d := by
  intro l
  induction l with
  | nil =>
      intro d v0 h
      refine ⟨?_, fun k2 _ => rfl, rfl⟩
      simp [h]
  | cons b bs ih =>
      intro d v0 h
      have hstep : alGet (alSet d k ((alGet d k).getD 0 + 1)) k
          = some (v0 + 1) := by
        rw [h]
        exact alGet_alSet_self d k (v0 + 1)
      obtain ⟨h1, h2, h3⟩ := ih (alSet d k ((alGet d k).getD 0 + 1))
        (v0 + 1) hstep
      refine ⟨?_, ?_, ?_⟩
      · rw [List.foldl_cons, h1]
        congr 1
        simp only [List.length_cons]
        push_cast
        ring
      · intro k2 hk2
        rw [List.foldl_cons, h2 k2 hk2]
        exact alGet_alSet_ne d hk2 _
      · rw [List.foldl_cons, h3]
        exact alKeys_alSet_mem d k _ ((alGet_isSome_iff d k).mp (by
          rw [h]; rfl))

theorem kahnInitItem_spec (d : List (String × Int))
    (item : String × List String)
    (hdeps : ∀ dep ∈ item.2, dep ∈ alKeys d)
    (hkey : item.1 ∈ alKeys d) :
    (alKeys (kahnInitItem d item) = alKeys d) ∧
    (∀ v0, alGet d item.1 = some v0 →
      alGet (kahnInitItem d item) item.1 = some (v0 + item.2.length)) ∧
    (∀ k, k ≠ item.1 → alGet (kahnInitItem d item) k = alGet d k) := by
  unfold kahnInitItem
  rw [phantom_fold_id item.2 d hdeps]
  obtain ⟨c, hc⟩ := Option.isSome_iff_exists.mp
    ((alGet_isSome_iff d item.1).mpr hkey)
  obtain ⟨h1, h2, h3⟩ := incr_fold item.1 item.2 d c hc
  refine ⟨h3, ?_, fun k hk => h2 k hk⟩
  intro v0 hv0
  rw [hv0] at hc
  injection hc with hcc
  rw [h1, hcc]

theorem initFold_spec :
    ∀ (items : List (String × List String)) (d : List (String × Int)),
      (items.map Prod.fst).Nodup →
      (∀ it ∈ items, ∀ dep ∈ it.2, dep ∈ alKeys d) →
      (∀ it ∈ items, it.1 ∈ alKeys d) →
      (alKeys (items.foldl kahnInitItem d) = alKeys d) ∧
      (∀ it ∈ items, ∀ v0, alGet d it.1 = some v0 →
        alGet (items.foldl kahnInitItem d) it.1
          = some (v0 + it.2.length)) ∧
      (∀ k, k ∉ items.map Prod.fst →
        alGet (items.foldl kahnInitItem d) k = alGet d k) := by
  intro items
  induction items with
  | nil =>
      intro d _ _ _
      exact ⟨rfl, fun it hit => absurd hit (List.not_mem_nil it),
             fun k _ => rfl⟩
  | cons it0 rest ih =>
      intro d hnd hdeps hkeys
      have hnd2 : it0.1 ∉ rest.map Prod.fst ∧ (rest.map Prod.fst).Nodup := by
        rw [List.map_cons, List.nodup_cons] at hnd
        exact hnd
      obtain ⟨hk0, h20, h30⟩ := kahnInitItem_spec d it0
        (hdeps it0 (List.mem_cons_self it0 rest))
        (hkeys it0 (List.mem_cons_self it0 rest))
      have ihr := ih (kahnInitItem d it0)
        hnd2.2
        (fun it hit dep hdep => hk0 ▸
          hdeps it (List.mem_cons_of_mem it0 hit) dep hdep)
        (fun it hit => hk0 ▸ hkeys it (List.mem_cons_of_mem it0 hit))
      obtain ⟨ih1, ih2, ih3⟩ := ihr
      refine ⟨?_, ?_, ?_⟩
      · rw [List.foldl_cons, ih1, hk0]
      · intro it hit v0 hv0
        rcases List.mem_cons.mp hit with rfl | hit2
        · rw [List.foldl_cons]
          rw [ih3 it.1 hnd2.1, h20 v0 hv0]
        · have hne : it.1 ≠ it0.1 := by
            intro he
            apply hnd2.1
            rw [← he]
            exact List.mem_map_of_mem Prod.fst hit2
          rw [List.foldl_cons]
          exact ih2 it hit2 v0 (by rw [h30 it.1 hne]; exact hv0)
      · intro k hk
        have hk1 : k ∉ rest.map Prod.fst := by
          intro he
          exact hk (List.mem_cons_of_mem _ he)
        have hk2 : k ≠ it0.1 := by
          intro he
          exact hk (he ▸ List.mem_cons_self _ _)
        rw [List.foldl_cons, ih3 k hk1, h30 k hk2]

theorem kahnInitDeg_spec (w : WorkflowDefinition)
    (hnp : noPhantomDeps w) :
    (alKeys (kahnInitDeg w) = alKeys (buildDependencyGraph w)) ∧
    (∀ o ds, alGet (buildDependencyGraph w) o = some ds →
      alGet (kahnInitDeg w) o = some (ds.length : Int)) := by
  have hzk : alKeys (w.tasks.foldl
        (fun d task => alSet d task.id ((0 : Int)))
        ([] : List (String × Int)))
      = alKeys (buildDependencyGraph w) := by
    unfold buildDependencyGraph
    exact foldl_alSet_keys_congr (fun t : TaskDefinition => t.id)
      (fun _ => (0 : Int)) (fun t => t.depends_on) w.tasks [] [] rfl
  have hzv : ∀ k v,
      alGet (w.tasks.foldl
          (fun d task => alSet d task.id ((0 : Int)))
          ([] : List (String × Int))) k = some v
        → v = 0 :=
    zeros_values (fun t : TaskDefinition => t.id) w.tasks []
      (fun k v hv => by cases hv)
  have hspec := initFold_spec (buildDependencyGraph w)
    (w.tasks.foldl (fun d task => alSet d task.id ((0 : Int)))
      ([] : List (String × Int)))
    (buildGraph_keys_nodup w)
    (fun it hit dep hdep => hzk ▸ hnp it hit dep hdep)
    (fun it hit => hzk ▸ List.mem_map_of_mem Prod.fst hit)
  obtain ⟨h1, h2, _⟩ := hspec
  constructor
  · unfold kahnInitDeg
    rw [h1, hzk]
  · intro o ds hods
    have hmem : (o, ds) ∈ buildDependencyGraph w := alGet_mem hods
    have hok : o ∈ alKeys (w.tasks.foldl
        (fun d task => alSet d task.id ((0 : Int)))
        ([] : List (String × Int))) :=
      hzk ▸ List.mem_map_of_mem Prod.fst hmem
    obtain ⟨v0, hv0⟩ := Option.isSome_iff_exists.mp
      ((alGet_isSome_iff _ o).mpr hok)
    have hv00 : v0 = 0 := hzv o v0 hv0
    have := h2 (o, ds) hmem v0 hv0
    unfold kahnInitDeg
    rw [this, hv00]
    simp

/-! ## Claim C3: the sweep of the Kahn loop -/

theorem kahnSweep_cons (t : String) (it0 : String × List String)
    (rest : List (String × List String)) (D : List (String × Int))
    (Q : List String) :
    kahnSweep t (it0 :: rest) D Q =
      if t ∈ it0.2 then
        (if (alGet D it0.1).getD 0 - 1 = 0 then
          kahnSweep t rest (alSet D it0.1 ((alGet D it0.1).getD 0 - 1))
            (Q ++ [it0.1])
        else
          kahnSweep t rest (alSet D it0.1 ((alGet D it0.1).getD 0 - 1)) Q)
      else kahnSweep t rest D Q := by
  unfold kahnSweep
  rw [List.foldl_cons]
  by_cases h1 : t ∈ it0.2
  · by_cases h2 : (alGet D it0.1).getD 0 - 1 = 0
    · simp [h1, h2]
    · simp [h1, h2]
  · simp [h1]

theorem kahnSweep_spec (t : String) :
    ∀ (items : List (String × List String)) (D : List (String × Int))
      (Q : List String),
      (alKeys items).Nodup →
      (∀ it ∈ items, it.1 ∈ alKeys D) →
      (alKeys (kahnSweep t items D Q).1 = alKeys D) ∧
      (∀ it ∈ items, ∀ v, alGet D it.1 = some v →
        alGet (kahnSweep t items D Q).1 it.1
          = some (v - (if t ∈ it.2 then (1 : Int) else 0))) ∧
      (∀ k, k ∉ alKeys items →
        alGet (kahnSweep t items D Q).1 k = alGet D k) ∧
      (∃ P, (kahnSweep t items D Q).2 = Q ++ P ∧
        P.Sublist (alKeys items) ∧
        ∀ p ∈ P, ∃ it ∈ items, it.1 = p ∧ t ∈ it.2 ∧
          alGet D p = some 1) := by
  intro items
  induction items with
  | nil =>
      intro D Q _ _
      refine ⟨rfl, ?_, fun k _ => rfl, [], by simp [kahnSweep],
        List.nil_sublist _, ?_⟩
      · intro it hit; exact absurd hit (List.not_mem_nil it)
      · intro p hp; exact absurd hp (List.not_mem_nil p)
  | cons it0 rest ih =>
      intro D Q hnd hkeys
      have hnd2 : it0.1 ∉ alKeys rest ∧ (alKeys rest).Nodup := by
        rw [alKeys_cons, List.nodup_cons] at hnd
        exact hnd
      have hkey0 : it0.1 ∈ alKeys D :=
        hkeys it0 (List.mem_cons_self it0 rest)
      by_cases htm : t ∈ it0.2
      · have hkD1 : alKeys (alSet D it0.1 ((alGet D it0.1).getD 0 - 1))
            = alKeys D := alKeys_alSet_mem D it0.1 _ hkey0
        obtain ⟨ih1, ih2, ih3, P, hP1, hP2, hP3⟩ :=
          ih (alSet D it0.1 ((alGet D it0.1).getD 0 - 1))
            (if (alGet D it0.1).getD 0 - 1 = 0 then Q ++ [it0.1] else Q)
            hnd2.2
            (fun it hit => hkD1 ▸ hkeys it (List.mem_cons_of_mem it0 hit))
        have hred : kahnSweep t (it0 :: rest) D Q
            = kahnSweep t rest (alSet D it0.1 ((alGet D it0.1).getD 0 - 1))
              (if (alGet D it0.1).getD 0 - 1 = 0 then Q ++ [it0.1] else Q)
            := by
          rw [kahnSweep_cons, if_pos htm]
          split_ifs <;> rfl
      -- the four conjuncts, sharing the recursive facts above
        refine ⟨?_, ?_, ?_, ?_⟩
        · rw [hred, ih1, hkD1]
        · intro it hit v hv
          rcases List.mem_cons.mp hit with rfl | hit2
          · rw [hred, ih3 it.1 hnd2.1, alGet_alSet_self, if_pos htm, hv]
            simp
          · have hne : it.1 ≠ it0.1 := by
              intro he
              exact hnd2.1 (he ▸ List.mem_map_of_mem Prod.fst hit2)
            rw [hred]
            exact ih2 it hit2 v (by rw [alGet_alSet_ne D hne]; exact hv)
        · intro k hk
          have hk1 : k ∉ alKeys rest := by
            intro he
            exact hk (by rw [alKeys_cons]; exact List.mem_cons_of_mem _ he)
          have hk2 : k ≠ it0.1 := by
            intro he
            exact hk (by rw [alKeys_cons, he]; exact List.mem_cons_self _ _)
          rw [hred, ih3 k hk1, alGet_alSet_ne D hk2]
        · by_cases hz : (alGet D it0.1).getD 0 - 1 = 0
          · refine ⟨it0.1 :: P, ?_, ?_, ?_⟩
            · rw [hred, if_pos hz]
              rw [if_pos hz] at hP1
              rw [hP1, List.append_assoc]
              rfl
            · rw [alKeys_cons]
              exact hP2.cons₂ it0.1
            · intro p hp
              rcases List.mem_cons.mp hp with rfl | hp2
              · refine ⟨it0, List.mem_cons_self it0 rest, rfl, htm, ?_⟩
                obtain ⟨c, hc⟩ := Option.isSome_iff_exists.mp
                  ((alGet_isSome_iff D it0.1).mpr hkey0)
                rw [hc] at hz ⊢
                simp only [Option.getD_some] at hz
                have : c = 1 := by omega
                rw [this]
              · obtain ⟨it, hit, hitp, htm2, hval⟩ := hP3 p hp2
                have hne : p ≠ it0.1 := by
                  intro he
                  exact hnd2.1
                    (he ▸ hitp ▸ List.mem_map_of_mem Prod.fst hit)
                refine ⟨it, List.mem_cons_of_mem it0 hit, hitp, htm2, ?_⟩
                rw [← alGet_alSet_ne D hne ((alGet D it0.1).getD 0 - 1)]
                exact hval
          · refine ⟨P, ?_, ?_, ?_⟩
            · rw [hred, if_neg hz]
              rw [if_neg hz] at hP1
              exact hP1
            · rw [alKeys_cons]
              exact hP2.cons it0.1
            · intro p hp
              obtain ⟨it, hit, hitp, htm2, hval⟩ := hP3 p hp
              have hne : p ≠ it0.1 := by
                intro he
                exact hnd2.1
                  (he ▸ hitp ▸ List.mem_map_of_mem Prod.fst hit)
              refine ⟨it, List.mem_cons_of_mem it0 hit, hitp, htm2, ?_⟩
              rw [← alGet_alSet_ne D hne ((alGet D it0.1).getD 0 - 1)]
              exact hval
      · obtain ⟨ih1, ih2, ih3, P, hP1, hP2, hP3⟩ :=
          ih D Q hnd2.2
            (fun it hit => hkeys it (List.mem_cons_of_mem it0 hit))
        have hred : kahnSweep t (it0 :: rest) D Q = kahnSweep t rest D Q :=
          by rw [kahnSweep_cons, if_neg htm]
        refine ⟨?_, ?_, ?_, P, ?_, ?_, ?_⟩
        · rw [hred, ih1]
        · intro it hit v hv
          rcases List.mem_cons.mp hit with rfl | hit2
          · rw [hred, ih3 it.1 hnd2.1, if_neg htm, hv]
            simp
          · rw [hred]
            exact ih2 it hit2 v hv
        · intro k hk
          have hk1 : k ∉ alKeys rest := by
            intro he
            exact hk (by rw [alKeys_cons]; exact List.mem_cons_of_mem _ he)
          rw [hred]
          exact ih3 k hk1
        · rw [hred]; exact hP1
        · rw [alKeys_cons]; exact hP2.cons it0.1
        · intro p hp
          obtain ⟨it, hit, hitp, htm2, hval⟩ := hP3 p hp
          exact ⟨it, List.mem_cons_of_mem it0 hit, hitp, htm2, hval⟩

theorem nodup_missing_length_lt (l keys : List String) (hl : l.Nodup)
    (hsub : ∀ x ∈ l, x ∈ keys) (s0 : String) (hs0 : s0 ∈ keys)
    (hns : s0 ∉ l) : l.length < keys.length := by
  have h1 : l.toFinset ⊆ keys.toFinset.erase s0 := by
    intro x hx
    rw [Finset.mem_erase]
    have hx2 := List.mem_toFinset.mp hx
    exact ⟨fun he => hns (he ▸ hx2), List.mem_toFinset.mpr (hsub x hx2)⟩
  have h2 : l.toFinset.card ≤ keys.toFinset.card - 1 := by
    have := Finset.card_le_card h1
    rwa [Finset.card_erase_of_mem (List.mem_toFinset.mpr hs0)] at this
  have h3 : l.toFinset.card = l.length := List.toFinset_card_of_nodup hl
  have h4 : keys.toFinset.card ≤ keys.length := keys.toFinset_card_le
  have h5 : 0 < keys.toFinset.card :=
    Finset.card_pos.mpr ⟨s0, List.mem_toFinset.mpr hs0⟩
  omega

theorem kahn_degree_pos (R ds : List String) (hR : R.Nodup) (d : String)
    (hd : d ∈ ds) (hdR : d ∉ R) :
    0 < (ds.length : Int) - ((R.filter (· ∈ ds)).length : Int) := by
  have hsubF : ∀ x ∈ R.filter (· ∈ ds), x ∈ ds := by
    intro x hx
    have := (List.mem_filter.mp hx).2
    simpa using this
  have hnsF : d ∉ R.filter (· ∈ ds) := fun h =>
    hdR (List.mem_filter.mp h).1
  have hlt := nodup_missing_length_lt (R.filter (· ∈ ds)) ds
    (hR.filter _) hsubF d hd hnsF
  omega

theorem kahnLoop_cons (G : List (String × List String)) (n : Nat)
    (t : String) (Q : List String) (D : List (String × Int))
    (R : List String) :
    kahnLoop G (n + 1) (t :: Q) D R
      = kahnLoop G n (kahnSweep t G D Q).2 (kahnSweep t G D Q).1
          (R ++ [t]) := by
  conv_lhs => rw [kahnLoop]

/-! ## Claim C3: the Kahn loop never emits a member of a cycle -/

theorem kahnLoop_cycle (G : List (String × List String)) (S : List String)
    (hGnd : (alKeys G).Nodup)
    (hScyc : ∀ s ∈ S, ∃ ds, alGet G s = some ds ∧ ∃ d ∈ ds, d ∈ S) :
    ∀ (fuel : Nat) (Q : List String) (D : List (String × Int))
      (R : List String), kahnInv G S D Q R →
      (kahnLoop G fuel Q D R).Nodup ∧
      (∀ k ∈ kahnLoop G fuel Q D R, k ∈ alKeys G) ∧
      (∀ s ∈ S, s ∉ kahnLoop G fuel Q D R) := by
  intro fuel
  induction fuel with
  | zero =>
      intro Q D R hinv
      obtain ⟨_, h2, h3, _, h5, _⟩ := hinv
      exact ⟨(List.nodup_append.mp h2).1,
        fun k hk => h3 k (List.mem_append_left _ hk),
        fun s hs hmem => (h5 s hs).1 hmem⟩
  | succ n ih =>
      intro Q D R hinv
      cases Q with
      | nil =>
          obtain ⟨_, h2, h3, _, h5, _⟩ := hinv
          exact ⟨(List.nodup_append.mp h2).1,
            fun k hk => h3 k (List.mem_append_left _ hk),
            fun s hs hmem => (h5 s hs).1 hmem⟩
      | cons t Q1 =>
          obtain ⟨h1, h2, h3, h4, h5, h6⟩ := hinv
          have hkeysG : ∀ it ∈ G, it.1 ∈ alKeys D := by
            intro it hit
            rw [h1]
            exact List.mem_map_of_mem Prod.fst hit
          obtain ⟨hk, hv, hout, P, hQ2, hPsub, hPmem⟩ :=
            kahnSweep_spec t G D Q1 hGnd hkeysG
          have h2x : ((R ++ [t]) ++ Q1).Nodup := by
            have he : R ++ t :: Q1 = (R ++ [t]) ++ Q1 := by simp
            rwa [he] at h2
          have hP0 : ∀ p ∈ P, alGet (kahnSweep t G D Q1).1 p = some 0 := by
            intro p hp
            obtain ⟨it, hit, hitp, htm, hval⟩ := hPmem p hp
            have hnew := hv it hit 1 (by rw [hitp]; exact hval)
            rw [hitp] at hnew
            rw [hnew, if_pos htm]
            norm_num
          have hPkeys : ∀ p ∈ P, p ∈ alKeys G := fun p hp =>
            hPsub.subset hp
          have hPnot : ∀ p ∈ P, p ∉ R ++ t :: Q1 := by
            intro p hp hmem
            obtain ⟨v, hval2, hvle⟩ := h4 p hmem
            obtain ⟨it, hit, hitp, htm, hval⟩ := hPmem p hp
            rw [hval2] at hval
            injection hval with hv1
            omega
          have hdeg2 : ∀ s ∈ S, ∃ ds, alGet G s = some ds ∧
              alGet (kahnSweep t G D Q1).1 s
                = some ((ds.length : Int)
                  - (((R ++ [t]).filter (· ∈ ds)).length : Int)) := by
            intro s hs
            obtain ⟨ds, hds, hDs⟩ := h6 s hs
            refine ⟨ds, hds, ?_⟩
            have hmemG : (s, ds) ∈ G := alGet_mem hds
            have hnew : alGet (kahnSweep t G D Q1).1 s
                = some (((ds.length : Int)
                    - ((R.filter (· ∈ ds)).length : Int))
                  - (if t ∈ ds then (1 : Int) else 0)) :=
              hv (s, ds) hmemG _ hDs
            rw [hnew]
            congr 1
            rw [List.filter_append]
            by_cases hts : t ∈ ds
            · have hft : [t].filter (· ∈ ds) = [t] := by
                simp [List.filter_cons, hts]
              rw [hft, if_pos hts, List.length_append]
              push_cast [List.length_singleton]
              ring
            · have hft : [t].filter (· ∈ ds) = ([] : List String) := by
                simp [List.filter_cons, hts]
              rw [hft, if_neg hts, List.length_append]
              push_cast [List.length_nil]
              ring
          have hS2 : ∀ s ∈ S, s ∉ R ++ [t] ∧ s ∉ Q1 ++ P := by
            intro s hs
            have h5s := h5 s hs
            have hst : s ≠ t := by
              intro he
              exact h5s.2 (he ▸ List.mem_cons_self t Q1)
            have hsQ1 : s ∉ Q1 := fun hm =>
              h5s.2 (List.mem_cons_of_mem t hm)
            have hsP : s ∉ P := by
              intro hsp
              obtain ⟨ds, hds, hD2s⟩ := hdeg2 s hs
              have h0 := hP0 s hsp
              rw [hD2s] at h0
              injection h0 with h0
              obtain ⟨ds2, hds2, d, hdds, hdS⟩ := hScyc s hs
              rw [hds] at hds2
              injection hds2 with hds2
              subst hds2
              have hdR2 : d ∉ R ++ [t] := by
                intro hdm
                rcases List.mem_append.mp hdm with hm | hm
                · exact (h5 d hdS).1 hm
                · have : d = t := by simpa using hm
                  exact (h5 d hdS).2 (this ▸ List.mem_cons_self t Q1)
              have hR2nd : (R ++ [t]).Nodup := (List.nodup_append.mp h2x).1
              have := kahn_degree_pos (R ++ [t]) ds hR2nd d hdds hdR2
              omega
            constructor
            · intro hm
              rcases List.mem_append.mp hm with hm2 | hm2
              · exact h5s.1 hm2
              · exact hst (by simpa using hm2)
            · intro hm
              rcases List.mem_append.mp hm with hm2 | hm2
              · exact hsQ1 hm2
              · exact hsP hm2
          have hsplit : ∀ k, k ∈ (R ++ [t]) ++ (Q1 ++ P) →
              k ∈ R ++ t :: Q1 ∨ k ∈ P := by
            intro k hkm
            rcases List.mem_append.mp hkm with hm | hm
            · rcases List.mem_append.mp hm with hm2 | hm2
              · exact Or.inl (List.mem_append_left _ hm2)
              · have : k = t := by simpa using hm2
                exact Or.inl (List.mem_append_right _
                  (this ▸ List.mem_cons_self t Q1))
            · rcases List.mem_append.mp hm with hm2 | hm2
              · exact Or.inl (List.mem_append_right _
                  (List.mem_cons_of_mem t hm2))
              · exact Or.inr hm2
          have hinv2 : kahnInv G S (kahnSweep t G D Q1).1
              ((kahnSweep t G D Q1).2) (R ++ [t]) := by
            rw [hQ2]
            refine ⟨hk.trans h1, ?_, ?_, ?_, hS2, ?_⟩
            · rw [← List.append_assoc]
              rw [List.nodup_append]
              refine ⟨h2x, List.Nodup.sublist hPsub hGnd, ?_⟩
              intro a ha hap
              apply hPnot a hap
              have he : R ++ t :: Q1 = (R ++ [t]) ++ Q1 := by simp
              rw [he]
              exact ha
            · intro k hkm
              rcases hsplit k hkm with hm | hm
              · exact h3 k hm
              · exact hPkeys k hm
            · intro k hkm
              rcases hsplit k hkm with hm | hm
              · obtain ⟨v, hval, hvle⟩ := h4 k hm
                obtain ⟨it, hit, hitk⟩ := List.mem_map.mp (h3 k hm)
                have hnew := hv it hit v (by rw [hitk]; exact hval)
                rw [hitk] at hnew
                refine ⟨v - (if t ∈ it.2 then (1 : Int) else 0), hnew, ?_⟩
                split_ifs <;> omega
              · exact ⟨0, hP0 k hm, le_refl 0⟩
            · exact hdeg2
          rw [kahnLoop_cons]
          exact ih (kahnSweep t G D Q1).2 (kahnSweep t G D Q1).1
            (R ++ [t]) hinv2

/-! ## Claim C3: cyclic graphs make `topological_sort` fail -/

theorem topological_sort_cycle (sm : SM)
    (hnp : noPhantomDeps sm.workflow) (hcyc : hasCycle sm.workflow) :
    sm.topological_sort
      = Except.error "Circular dependency detected in workflow" := by
  obtain ⟨S, hSne, hScyc⟩ := hcyc
  have hGnd : (alKeys (buildDependencyGraph sm.workflow)).Nodup :=
    buildGraph_keys_nodup sm.workflow
  obtain ⟨hDk, hDval⟩ := kahnInitDeg_spec sm.workflow hnp
  have hD0nd : (alKeys (kahnInitDeg sm.workflow)).Nodup := by
    rw [hDk]
    exact hGnd
  have hQsub : (((kahnInitDeg sm.workflow).filter
        fun p => p.2 = 0).map Prod.fst).Sublist
      (alKeys (kahnInitDeg sm.workflow)) :=
    List.Sublist.map Prod.fst (List.filter_sublist _)
  have hQval : ∀ k ∈ ((kahnInitDeg sm.workflow).filter
        fun p => p.2 = 0).map Prod.fst,
      alGet (kahnInitDeg sm.workflow) k = some 0 := by
    intro k hk
    obtain ⟨p, hpf, hpk⟩ := List.mem_map.mp hk
    have hpm := List.mem_filter.mp hpf
    have hp0 : p.2 = 0 := by simpa using hpm.2
    have : alGet (kahnInitDeg sm.workflow) p.1 = some p.2 :=
      alGet_of_mem_nodup hD0nd hpm.1
    rw [hpk, hp0] at this
    exact this
  have hinv : kahnInv (buildDependencyGraph sm.workflow) S
      (kahnInitDeg sm.workflow)
      (((kahnInitDeg sm.workflow).filter fun p => p.2 = 0).map Prod.fst)
      [] := by
    refine ⟨hDk, ?_, ?_, ?_, ?_, ?_⟩
    · simp only [List.nil_append]
      exact List.Nodup.sublist hQsub hD0nd
    · intro k hk
      simp only [List.nil_append] at hk
      rw [← hDk]
      exact hQsub.subset hk
    · intro k hk
      simp only [List.nil_append] at hk
      exact ⟨0, hQval k hk, le_refl 0⟩
    · intro s hs
      refine ⟨List.not_mem_nil s, ?_⟩
      intro hm
      obtain ⟨ds, hds, d, hdds, _⟩ := hScyc s hs
      have h1 := hQval s hm
      have h2 := hDval s ds hds
      rw [h2] at h1
      injection h1 with h1
      have h3 : 0 < ds.length := List.length_pos.mpr
        (List.ne_nil_of_mem hdds)
      omega
    · intro s hs
      obtain ⟨ds, hds, _, _, _⟩ := hScyc s hs
      refine ⟨ds, hds, ?_⟩
      rw [hDval s ds hds]
      simp
  have hloop := kahnLoop_cycle (buildDependencyGraph sm.workflow) S hGnd
    hScyc ((kahnInitDeg sm.workflow).length + 1)
    (((kahnInitDeg sm.workflow).filter fun p => p.2 = 0).map Prod.fst)
    (kahnInitDeg sm.workflow) [] hinv
  obtain ⟨hRnd, hRsub, hRmiss⟩ := hloop
  obtain ⟨s0, hs0⟩ := List.exists_mem_of_ne_nil S hSne
  have hs0k : s0 ∈ alKeys (buildDependencyGraph sm.workflow) := by
    obtain ⟨ds, hds, _⟩ := hScyc s0 hs0
    exact List.mem_map_of_mem Prod.fst (alGet_mem hds)
  have hlen : (kahnLoop (buildDependencyGraph sm.workflow)
        ((kahnInitDeg sm.workflow).length + 1)
        (((kahnInitDeg sm.workflow).filter fun p => p.2 = 0).map Prod.fst)
        (kahnInitDeg sm.workflow) []).length
      < (alKeys (buildDependencyGraph sm.workflow)).length :=
    nodup_missing_length_lt _ _ hRnd hRsub s0 hs0k (hRmiss s0 hs0)
  have hlen2 := buildGraph_keys_len sm.workflow
  have hne : (kahnLoop (buildDependencyGraph sm.workflow)
        ((kahnInitDeg sm.workflow).length + 1)
        (((kahnInitDeg sm.workflow).filter fun p => p.2 = 0).map Prod.fst)
        (kahnInitDeg sm.workflow) []).length
      ≠ sm.workflow.tasks.length := by omega
  simp only [SM.topological_sort]
  rw [if_pos hne]

/-! ## Claim C3: failing every task on the cycle-error path -/

theorem fail_task_empty_results (sm : SM) (id e : String)
    (h : sm.state.task_results = []) :
    ((sm.fail_task id e).state.task_results = []) ∧
    (id ∈ (sm.fail_task id e).state.failed_tasks) ∧
    (∀ x ∈ sm.state.failed_tasks,
      x ∈ (sm.fail_task id e).state.failed_tasks) := by
  unfold SM.fail_task
  simp only [h]
  refine ⟨rfl, ?_, ?_⟩
  · simp only [alGet]
    split_ifs with h1
    · exact h1
    · exact List.mem_append_right _ (List.mem_cons_self id [])
  · intro x hx
    simp only [alGet]
    split_ifs with h1
    · exact hx
    · exact List.mem_append_left _ hx

theorem foldFail_spec (e : String) :
    ∀ (ts : List TaskDefinition) (sm : SM),
      sm.state.task_results = [] →
      ((ts.foldl (fun sm t => sm.fail_task t.id e) sm).state.task_results
        = []) ∧
      (∀ t ∈ ts, t.id ∈
        (ts.foldl (fun sm t => sm.fail_task t.id e) sm).state.failed_tasks)
        ∧
      (∀ x ∈ sm.state.failed_tasks, x ∈
        (ts.foldl (fun sm t => sm.fail_task t.id e) sm).state.failed_tasks)
      := by
  intro ts
  induction ts with
  | nil =>
      intro sm h
      exact ⟨h, fun t ht => absurd ht (List.not_mem_nil t),
        fun x hx => hx⟩
  | cons t0 rest ih =>
      intro sm h
      obtain ⟨hr0, hm0, hmono0⟩ := fail_task_empty_results sm t0.id e h
      obtain ⟨ihr, ihm, ihmono⟩ := ih (sm.fail_task t0.id e) hr0
      refine ⟨ihr, ?_, ?_⟩
      · intro t ht
        rcases List.mem_cons.mp ht with rfl | ht2
        · exact ihmono t.id hm0
        · exact ihm t ht2
      · intro x hx
        exact ihmono x (hmono0 x hx)

theorem fail_workflow_projections (sm : SM) (e : String) :
    ((sm.fail_workflow e).state.task_results = sm.state.task_results) ∧
    ((sm.fail_workflow e).state.failed_tasks = sm.state.failed_tasks) ∧
    ((sm.fail_workflow e).state.status = .failed) :=
  ⟨rfl, rfl, rfl⟩

theorem finishWorkflow_failed (w : WorkflowDefinition) (os : OrchState)
    (hf : os.sm.state.failed_tasks ≠ [])
    (hcof : w.continue_on_failure = false) :
    ((finishWorkflow w os).sm.state.task_results
        = os.sm.state.task_results) ∧
    ((finishWorkflow w os).sm.state.failed_tasks
        = os.sm.state.failed_tasks) ∧
    ((finishWorkflow w os).sm.state.status = .failed) := by
  unfold finishWorkflow
  have hcond : (os.sm.has_failed_tasks && !w.continue_on_failure) = true := by
    rw [hcof]
    simp only [SM.has_failed_tasks, Bool.not_false, Bool.and_true,
      Bool.not_eq_true']
    simp [List.isEmpty_iff, hf]
  rw [if_pos hcond]
  exact ⟨rfl, rfl, rfl⟩

/-- Claim C3 counterexample: a two-task cyclic workflow (`a` depends on
`b`, `b` on `a`) run under the DAG strategy does end with workflow status
`failed` and both ids in `failed_tasks`, but `task_results` stays empty -
`fail_task` only rewrites an existing `TaskResult`, and none was ever
created - so no task has a TaskResult with the cycle-detection message,
contrary to the claim. -/
theorem c3_counterexample :
    (executeWorkflow [] outcomeEcho wCycle).sm.state.status = .failed ∧
    (executeWorkflow [] outcomeEcho wCycle).sm.state.failed_tasks
      = ["a", "b"] ∧
    (executeWorkflow [] outcomeEcho wCycle).sm.state.task_results = [] :=
  ⟨rfl, rfl, rfl⟩

/-- Claim C3, amended: for every workflow whose dependency graph has a
cycle (and whose dependency ids all name tasks), DAG execution with
`continue_on_failure = false` ends with workflow status `failed` and
every task id in `failed_tasks`, but `task_results` remains empty: no
TaskResult with the cycle message is created for any task. -/
theorem c3_cycle_dag (cfg : List AgentRouting) (outcome : AgentOutcome)
    (w : WorkflowDefinition) (hdag : w.execution_strategy = .dag)
    (hnp : noPhantomDeps w) (hcyc : hasCycle w)
    (hcof : w.continue_on_failure = false) :
    (∀ t ∈ w.tasks,
      t.id ∈ (executeWorkflow cfg outcome w).sm.state.failed_tasks) ∧
    (executeWorkflow cfg outcome w).sm.state.task_results = [] ∧
    (executeWorkflow cfg outcome w).sm.state.status = .failed := by
  have hres0 : ((SM.init w).start_workflow).state.task_results = [] := rfl
  have hts : ((SM.init w).start_workflow).topological_sort
      = Except.error "Circular dependency detected in workflow" :=
    topological_sort_cycle ((SM.init w).start_workflow) hnp hcyc
  have hB : dagExecute cfg outcome
        ({ sm := (SM.init w).start_workflow } : OrchState)
      = { sm := w.tasks.foldl
            (fun sm t =>
              sm.fail_task t.id "Circular dependency detected in workflow")
            ((SM.init w).start_workflow) } := by
    simp [dagExecute, hts]
    rfl
  have hA : executeWorkflow cfg outcome w
      = finishWorkflow w (dagExecute cfg outcome
          ({ sm := (SM.init w).start_workflow } : OrchState)) := by
    simp [executeWorkflow, hdag, runExecutor]
  obtain ⟨hfr, hfm, _⟩ := foldFail_spec
    "Circular dependency detected in workflow" w.tasks
    ((SM.init w).start_workflow) hres0
  have htasks_ne : w.tasks ≠ [] := by
    obtain ⟨S, hSne, hScyc⟩ := hcyc
    obtain ⟨s0, hs0⟩ := List.exists_mem_of_ne_nil S hSne
    obtain ⟨ds, hds, _⟩ := hScyc s0 hs0
    intro hnil
    have : buildDependencyGraph w = [] := by
      unfold buildDependencyGraph
      rw [hnil]
      rfl
    rw [this] at hds
    cases hds
  have hfailed_ne : (w.tasks.foldl
      (fun sm t =>
        sm.fail_task t.id "Circular dependency detected in workflow")
      ((SM.init w).start_workflow)).state.failed_tasks ≠ [] := by
    obtain ⟨t0, ht0⟩ := List.exists_mem_of_ne_nil w.tasks htasks_ne
    exact List.ne_nil_of_mem (hfm t0 ht0)
  obtain ⟨hfw1, hfw2, hfw3⟩ := finishWorkflow_failed w
    { sm := w.tasks.foldl
        (fun sm t =>
          sm.fail_task t.id "Circular dependency detected in workflow")
        ((SM.init w).start_workflow) }
    hfailed_ne hcof
  rw [hA, hB]
  refine ⟨?_, ?_, ?_⟩
  · intro t ht
    rw [hfw2]
    exact hfm t ht
  · rw [hfw1]
    exact hfr
  · exact hfw3

/-- Claim C3 witness: the amended cycle theorem applied to the concrete
two-task cyclic workflow. -/
theorem c3_cycle_dag_witness :
    (∀ t ∈ wCycle.tasks,
      t.id ∈ (executeWorkflow [] outcomeEcho wCycle).sm.state.failed_tasks)
      ∧
    (executeWorkflow [] outcomeEcho wCycle).sm.state.task_results = [] ∧
    (executeWorkflow [] outcomeEcho wCycle).sm.state.status = .failed := by
  have hcyc : hasCycle wCycle := by
    refine ⟨["a", "b"], by decide, ?_⟩
    intro s hs
    rcases List.mem_cons.mp hs with rfl | hs2
    · exact ⟨["b"], rfl, "b", by decide, by decide⟩
    rcases List.mem_cons.mp hs2 with rfl | hs3
    · exact ⟨["a"], rfl, "a", by decide, by decide⟩
    exact absurd hs3 (List.not_mem_nil s)
  exact c3_cycle_dag [] outcomeEcho wCycle rfl
    (by unfold noPhantomDeps; decide) hcyc rfl

end PyDeep
